import Mathlib

/-!
Package `creation` of `cmd/renew_apple_cert`.

A shallow embedding of `cmd/renew_apple_cert/creation/creation.go` and proofs about it.

The Go code talks to the operating system and to the Go standard library
(`os`, `io/ioutil`, `crypto/rsa`, `crypto/x509`, `encoding/pem`).  Those
collaborators are the fields of `Sys`; the functions of the package are
written in state-passing style over an arbitrary `Sys`, and every call to a
collaborator is recorded in a trace, so that statements such as "no CSR file
is written" are statements about the calls the code makes.  The pure helpers
`path.Join` and `path.Clean` are embedded as functions.
-/

namespace creation

/-! ## Data model -/

/-- Go `string`: an immutable sequence of bytes. -/
abbrev GoString := List UInt8

/-- The bytes of an ASCII string literal of the source text. -/
def lit (s : String) : GoString := s.toList.map Char.toUInt8

/-- The constant `fileMode = 0700` (creation.go:19). -/
def fileMode : Nat := 0o700

/-- The struct `input` (creation.go:21-29). -/
structure input where
  app : GoString
  applePushTopic : GoString
  country : GoString
  province : GoString
  locality : GoString
  organization : GoString
  email : GoString
deriving DecidableEq

/-- The constructor `newInput` (creation.go:31-41). -/
def newInput (app applePushTopic country province locality organization email : GoString) :
    input :=
  { app := app
    applePushTopic := applePushTopic
    country := country
    province := province
    locality := locality
    organization := organization
    email := email }

/-- A Go `error` value that is not nil: an operating-system error number
(as carried by `*os.PathError`) or any other error. -/
inductive GoError where
  | errno (code : Nat)
  | other (msg : String)
deriving DecidableEq

/-- The error number `syscall.ENOENT`. -/
def ENOENT : Nat := 2

/-- The error number `syscall.ENOTDIR`. -/
def ENOTDIR : Nat := 20

/-- The error number `syscall.EROFS`. -/
def EROFS : Nat := 30

/-- The function `os.IsNotExist`: true exactly for an error whose number is `ENOENT`;
false for nil and for every other error. -/
def IsNotExist : Option GoError → Bool
  | some (GoError.errno code) => code == ENOENT
  | _ => false

/-- The part of `os.FileInfo` the package could observe. -/
structure FileInfo where
  IsDir : Bool
  Mode : Nat
deriving DecidableEq

/-- The type `rsa.PrivateKey`: modulus, public exponent, private exponent. -/
structure PrivateKey where
  N : Nat
  E : Nat
  D : Nat
deriving DecidableEq

/-- The type `asn1.RawValue`. -/
structure RawValue where
  Class : Nat
  Tag : Nat
  IsCompound : Bool
  Bytes : List UInt8
  FullBytes : List UInt8
deriving DecidableEq

/-- The constant `asn1.TagIA5String`. -/
def TagIA5String : Nat := 22

/-- The values the package stores in the `Value any` field of
`pkix.AttributeTypeAndValue`: a Go string or an `asn1.RawValue`. -/
inductive AnyValue where
  | str (s : GoString)
  | raw (v : RawValue)
deriving DecidableEq

/-- The type `pkix.AttributeTypeAndValue`; `Typ` is its field `Type`, an
`asn1.ObjectIdentifier`. -/
structure AttributeTypeAndValue where
  Typ : List Nat
  Value : AnyValue
deriving DecidableEq

/-- The type `pkix.Name`. -/
structure Name where
  Country : List GoString
  Organization : List GoString
  OrganizationalUnit : List GoString
  Locality : List GoString
  Province : List GoString
  StreetAddress : List GoString
  PostalCode : List GoString
  SerialNumber : GoString
  CommonName : GoString
  Names : List AttributeTypeAndValue
  ExtraNames : List AttributeTypeAndValue
deriving DecidableEq

/-- The type `pkix.AttributeTypeAndValueSET`; `Typ` is its field `Type`. -/
structure AttributeTypeAndValueSET where
  Typ : List Nat
  Value : List (List AttributeTypeAndValue)
deriving DecidableEq

/-- The type `pkix.Extension`. -/
structure Extension where
  Id : List Nat
  Critical : Bool
  Value : List UInt8
deriving DecidableEq

/-- The enumeration `x509.SignatureAlgorithm`, in the order of its constants. -/
inductive SignatureAlgorithm where
  | UnknownSignatureAlgorithm
  | MD2WithRSA
  | MD5WithRSA
  | SHA1WithRSA
  | SHA256WithRSA
  | SHA384WithRSA
  | SHA512WithRSA
  | DSAWithSHA1
  | DSAWithSHA256
  | ECDSAWithSHA1
  | ECDSAWithSHA256
  | ECDSAWithSHA384
  | ECDSAWithSHA512
  | SHA256WithRSAPSS
  | SHA384WithRSAPSS
  | SHA512WithRSAPSS
  | PureEd25519
deriving DecidableEq

/-- The fields of `x509.CertificateRequest` that `x509.CreateCertificateRequest` reads. -/
structure CertificateRequest where
  SignatureAlgorithm : SignatureAlgorithm
  Subject : Name
  RawSubject : List UInt8
  Attributes : List AttributeTypeAndValueSET
  ExtraExtensions : List Extension
  DNSNames : List GoString
  EmailAddresses : List GoString
  IPAddresses : List (List UInt8)
  URIs : List GoString
deriving DecidableEq

/-! ## The collaborators -/

/-- The operating system and library functions the package calls.  `σ` is the state
they act on (filesystem, random source). -/
structure Sys (σ : Type) where
  /-- The function `os.Getenv`. -/
  Getenv : GoString → GoString
  /-- The function `os.Stat`. -/
  Stat : σ → GoString → Except GoError FileInfo
  /-- The function `os.MkdirAll`, with its path and permission arguments. -/
  MkdirAll : σ → GoString → Nat → σ × Option GoError
  /-- The function `rsa.GenerateKey(rand.Reader, bits)`. -/
  GenerateKey : σ → Nat → σ × Except GoError PrivateKey
  /-- The function `x509.MarshalPKCS1PrivateKey`. -/
  MarshalPKCS1PrivateKey : PrivateKey → List UInt8
  /-- The function `pem.EncodeToMemory` on a block with the given type and bytes. -/
  EncodeToMemory : GoString → List UInt8 → List UInt8
  /-- The function `ioutil.WriteFile`, with its name, data and permission arguments. -/
  WriteFile : σ → GoString → List UInt8 → Nat → σ × Option GoError
  /-- The function `x509.CreateCertificateRequest(rand.Reader, template, key)`;
  the key is a pointer and may be nil. -/
  CreateCertificateRequest :
    σ → CertificateRequest → Option PrivateKey → σ × Except GoError (List UInt8)

deriving instance DecidableEq for Except

/-- One call to a collaborator, with its arguments and its result. -/
inductive Event where
  | stat (name : GoString) (res : Except GoError FileInfo)
  | mkdirAll (path : GoString) (perm : Nat) (err : Option GoError)
  | generateKey (bits : Nat) (res : Except GoError PrivateKey)
  | writeFile (name : GoString) (data : List UInt8) (perm : Nat) (err : Option GoError)
  | createCertificateRequest (template : CertificateRequest) (key : Option PrivateKey)
      (res : Except GoError (List UInt8))
deriving DecidableEq

/-- The state of a run: the state of the collaborators and the calls made so far. -/
structure World (σ : Type) where
  st : σ
  trace : List Event
deriving DecidableEq

/-- The `error` half of a Go `(value, error)` result. -/
def errOf {α : Type} : Except GoError α → Option GoError
  | Except.error e => some e
  | Except.ok _ => none

variable {σ : Type}

/-- A call of `os.Stat`. -/
def osStat (sys : Sys σ) (name : GoString) (w : World σ) :
    World σ × Except GoError FileInfo :=
  (⟨w.st, w.trace ++ [Event.stat name (sys.Stat w.st name)]⟩, sys.Stat w.st name)

/-- A call of `os.MkdirAll`. -/
def osMkdirAll (sys : Sys σ) (path : GoString) (perm : Nat) (w : World σ) :
    World σ × Option GoError :=
  (⟨(sys.MkdirAll w.st path perm).1,
    w.trace ++ [Event.mkdirAll path perm (sys.MkdirAll w.st path perm).2]⟩,
   (sys.MkdirAll w.st path perm).2)

/-- A call of `rsa.GenerateKey(rand.Reader, bits)`. -/
def rsaGenerateKey (sys : Sys σ) (bits : Nat) (w : World σ) :
    World σ × Except GoError PrivateKey :=
  (⟨(sys.GenerateKey w.st bits).1,
    w.trace ++ [Event.generateKey bits (sys.GenerateKey w.st bits).2]⟩,
   (sys.GenerateKey w.st bits).2)

/-- A call of `ioutil.WriteFile`. -/
def ioutilWriteFile (sys : Sys σ) (name : GoString) (data : List UInt8) (perm : Nat)
    (w : World σ) : World σ × Option GoError :=
  (⟨(sys.WriteFile w.st name data perm).1,
    w.trace ++ [Event.writeFile name data perm (sys.WriteFile w.st name data perm).2]⟩,
   (sys.WriteFile w.st name data perm).2)

/-- A call of `x509.CreateCertificateRequest(rand.Reader, template, key)`. -/
def x509CreateCertificateRequest (sys : Sys σ) (template : CertificateRequest)
    (key : Option PrivateKey) (w : World σ) : World σ × Except GoError (List UInt8) :=
  (⟨(sys.CreateCertificateRequest w.st template key).1,
    w.trace ++ [Event.createCertificateRequest template key
      (sys.CreateCertificateRequest w.st template key).2]⟩,
   (sys.CreateCertificateRequest w.st template key).2)

/-! ## `path.Clean` and `path.Join` -/

/-- The byte `'/'`. -/
def slash : UInt8 := 47

/-- The byte `'.'`. -/
def dot : UInt8 := 46

/-- The backtracking loop of the `..` case of `path.Clean`, entered after `out.w--`
with `w` the new write index: `for out.w > dotdot && out.index(out.w) != '/' { out.w-- }`.
`buf` holds the bytes written before the decrement; the result is the final `out.w`. -/
def backtrack (buf : List UInt8) (dotdot : Nat) : Nat → Nat
  | 0 => 0
  | w + 1 =>
    if w + 1 > dotdot ∧ buf.get? (w + 1) ≠ some slash then backtrack buf dotdot w
    else w + 1

/-- The main loop `for r < n` of `path.Clean`.  `rest` is `path[r:]`, `out` the
bytes written so far (`out.w` is its length), `dotdot` the index where `..` must
stop.  Every iteration consumes at least one byte of `rest`; the first argument
bounds the number of iterations. -/
def cleanLoop (rooted : Bool) : Nat → List UInt8 → List UInt8 → Nat → List UInt8
  | 0, _, out, _ => out
  | _ + 1, [], out, _ => out
  | fuel + 1, c :: rest, out, dotdot =>
    if c = slash then
      -- empty path element
      cleanLoop rooted fuel rest out dotdot
    else if c = dot ∧ (rest = [] ∨ rest.head? = some slash) then
      -- . element
      cleanLoop rooted fuel rest out dotdot
    else if c = dot ∧ rest.head? = some dot ∧
        (rest.tail = [] ∨ rest.tail.head? = some slash) then
      -- .. element: remove to last /
      if out.length > dotdot then
        cleanLoop rooted fuel rest.tail
          (out.take (backtrack out dotdot (out.length - 1))) dotdot
      else if !rooted then
        cleanLoop rooted fuel rest.tail
          ((if out.length > 0 then out ++ [slash] else out) ++ [dot, dot])
          ((if out.length > 0 then out ++ [slash] else out) ++ [dot, dot]).length
      else
        cleanLoop rooted fuel rest.tail out dotdot
    else
      -- real path element: add slash if needed, copy element
      cleanLoop rooted fuel ((c :: rest).dropWhile (fun b => b ≠ slash))
        ((if (rooted ∧ out.length ≠ 1) ∨ (¬ rooted ∧ out.length ≠ 0)
            then out ++ [slash] else out)
          ++ (c :: rest).takeWhile (fun b => b ≠ slash))
        dotdot

/-- The function `path.Clean` of the Go standard library. -/
def Clean (path : GoString) : GoString :=
  if path = [] then [dot]
  else
    let rooted : Bool := path.head? = some slash
    let out := cleanLoop rooted path.length (if rooted then path.tail else path)
      (if rooted then [slash] else []) (if rooted then 1 else 0)
    if out.length = 0 then [dot] else out

/-- The concatenation loop of `path.Join`: non-empty elements separated by `'/'`. -/
def joinBuf : List UInt8 → List GoString → List UInt8
  | buf, [] => buf
  | buf, e :: elem =>
    if buf.length > 0 ∨ e ≠ [] then
      joinBuf ((if buf.length > 0 then buf ++ [slash] else buf) ++ e) elem
    else joinBuf buf elem

/-- The function `path.Join` of the Go standard library. -/
def Join (elem : List GoString) : GoString :=
  if (elem.map List.length).sum = 0 then []
  else Clean (joinBuf [] elem)

/-- A plain path element: not empty, without a slash, and neither `.` nor `..`. -/
def isPlain (e : GoString) : Bool :=
  decide (e ≠ []) && e.all (fun b => decide (b ≠ slash)) && decide (e ≠ [dot]) &&
    decide (e ≠ [dot, dot])

/-! ## The package -/

/-- The function `createDirs` (creation.go:73-84). -/
def createDirs (sys : Sys σ) : List GoString → World σ → World σ × Option GoError
  | [], w => (w, none)
  | dir :: dirs, w =>
    if IsNotExist (errOf (osStat sys dir w).2) then
      if (osMkdirAll sys dir fileMode (osStat sys dir w).1).2 ≠ none then
        osMkdirAll sys dir fileMode (osStat sys dir w).1
      else createDirs sys dirs (osMkdirAll sys dir fileMode (osStat sys dir w).1).1
    else createDirs sys dirs (osStat sys dir w).1

/-- The name of the key file, `path.Join(dirCSR, app+".key")` (creation.go:121). -/
def keyPath (dirCSR app : GoString) : GoString := Join [dirCSR, app ++ lit ".key"]

/-- The name of the request file, `path.Join(dirCSR, i.app+".csr")` (creation.go:155). -/
def csrPath (dirCSR app : GoString) : GoString := Join [dirCSR, app ++ lit ".csr"]

/-- The value `pemPrivateKey`: the PEM block of type "RSA PRIVATE KEY" holding the
PKCS#1 encoding `marshaledKey` of the key (creation.go:114-120). -/
def pemPrivateKey (sys : Sys σ) (key : PrivateKey) : List UInt8 :=
  sys.EncodeToMemory (lit "RSA PRIVATE KEY") (sys.MarshalPKCS1PrivateKey key)

/-- The value `cr`: the PEM block of type "CERTIFICATE REQUEST" holding the request
(creation.go:154). -/
def cr (sys : Sys σ) (csrBytes : List UInt8) : List UInt8 :=
  sys.EncodeToMemory (lit "CERTIFICATE REQUEST") csrBytes

/-- The function `createAndWritePrivateKey` (creation.go:109-126): the returned
pointer (nil or a key) and error. -/
def createAndWritePrivateKey (sys : Sys σ) (app dirCSR : GoString) (w : World σ) :
    World σ × Option PrivateKey × Option GoError :=
  match rsaGenerateKey sys 2048 w with
  | (w1, Except.error err) => (w1, none, some err)
  | (w1, Except.ok key) =>
    match ioutilWriteFile sys (keyPath dirCSR app) (pemPrivateKey sys key) fileMode w1 with
    | (w2, some err) => (w2, none, some err)
    | (w2, none) => (w2, some key, none)

/-- The subject `subj` built by `createAndWriteCSR` (creation.go:129-145). -/
def subj (i : input) : Name :=
  { CommonName := i.applePushTopic
    Country := [i.country]
    Province := [i.province]
    Locality := [i.locality]
    Organization := [i.organization]
    ExtraNames :=
      [{ Typ := [1, 2, 840, 113549, 1, 9, 1]
         Value := AnyValue.raw
           { Tag := TagIA5String
             Bytes := i.email
             Class := 0
             IsCompound := false
             FullBytes := [] } }]
    OrganizationalUnit := []
    StreetAddress := []
    PostalCode := []
    SerialNumber := []
    Names := [] }

/-- The request `template` built by `createAndWriteCSR` (creation.go:146-149). -/
def template (i : input) : CertificateRequest :=
  { Subject := subj i
    SignatureAlgorithm := SignatureAlgorithm.SHA256WithRSA
    RawSubject := []
    Attributes := []
    ExtraExtensions := []
    DNSNames := []
    EmailAddresses := []
    IPAddresses := []
    URIs := [] }

/-- The function `createAndWriteCSR` (creation.go:128-160). -/
def createAndWriteCSR (sys : Sys σ) (i : input) (key : Option PrivateKey)
    (dirCSR : GoString) (w : World σ) : World σ × Option GoError :=
  match x509CreateCertificateRequest sys (template i) key w with
  | (w1, Except.error err) => (w1, some err)
  | (w1, Except.ok csrBytes) =>
    match ioutilWriteFile sys (csrPath dirCSR i.app) (cr sys csrBytes) fileMode w1 with
    | (w2, some err) => (w2, some err)
    | (w2, none) => (w2, none)

/-- How a run of `Creation` ends: it returns, or `log.Fatal` terminates the process. -/
inductive Outcome where
  | returned
  | fatal (err : GoError)
deriving DecidableEq

/-- The value `i` that `Creation` reads from the environment (creation.go:87-95). -/
def envInput (sys : Sys σ) : input :=
  newInput
    (sys.Getenv (lit "APP"))
    (sys.Getenv (lit "APPLE_PUSH_TOPIC"))
    (sys.Getenv (lit "COUNTRY"))
    (sys.Getenv (lit "PROVINCE"))
    (sys.Getenv (lit "LOCALITY"))
    (sys.Getenv (lit "ORGANIZATION"))
    (sys.Getenv (lit "EMAIL"))

/-- The value `dirCSR` that `Creation` reads from the environment (creation.go:96). -/
def envDirCSR (sys : Sys σ) : GoString := sys.Getenv (lit "DIR_CSR")

/-- The function `Creation` (creation.go:86-107). -/
def Creation (sys : Sys σ) (w : World σ) : World σ × Outcome :=
  match createAndWritePrivateKey sys (envInput sys).app (envDirCSR sys) w with
  | (w1, _, some err) => (w1, Outcome.fatal err)
  | (w1, key, none) =>
    match createAndWriteCSR sys (envInput sys) key (envDirCSR sys) w1 with
    | (w2, some err) => (w2, Outcome.fatal err)
    | (w2, none) => (w2, Outcome.returned)

/-! ## The subject encoding of `crypto/x509`

`x509.CreateCertificateRequest` encodes the subject of the template with
`asn1.Marshal(template.Subject.ToRDNSequence())`.  The functions below follow
`crypto/x509/pkix` and `encoding/asn1` of the Go standard library. -/

/-- The object identifiers of `crypto/x509/pkix` for the attributes of a `Name`. -/
def oidCountry : List Nat := [2, 5, 4, 6]

/-- See `oidCountry`. -/
def oidOrganization : List Nat := [2, 5, 4, 10]

/-- See `oidCountry`. -/
def oidOrganizationalUnit : List Nat := [2, 5, 4, 11]

/-- See `oidCountry`. -/
def oidCommonName : List Nat := [2, 5, 4, 3]

/-- See `oidCountry`. -/
def oidSerialNumber : List Nat := [2, 5, 4, 5]

/-- See `oidCountry`. -/
def oidLocality : List Nat := [2, 5, 4, 7]

/-- See `oidCountry`. -/
def oidProvince : List Nat := [2, 5, 4, 8]

/-- See `oidCountry`. -/
def oidStreetAddress : List Nat := [2, 5, 4, 9]

/-- See `oidCountry`. -/
def oidPostalCode : List Nat := [2, 5, 4, 17]

/-- The function `oidInAttributeTypeAndValue` of `crypto/x509/pkix`. -/
def oidInAttributeTypeAndValue (oid : List Nat) (atv : List AttributeTypeAndValue) : Bool :=
  atv.any fun a => a.Typ = oid

/-- The method `Name.appendRDNs` of `crypto/x509/pkix`. -/
def appendRDNs (n : Name) (acc : List (List AttributeTypeAndValue)) (values : List GoString)
    (oid : List Nat) : List (List AttributeTypeAndValue) :=
  if values.length = 0 ∨ oidInAttributeTypeAndValue oid n.ExtraNames then acc
  else acc ++ [values.map fun value => { Typ := oid, Value := AnyValue.str value }]

/-- The method `Name.ToRDNSequence` of `crypto/x509/pkix`. -/
def ToRDNSequence (n : Name) : List (List AttributeTypeAndValue) :=
  let r1 := appendRDNs n [] n.Country oidCountry
  let r2 := appendRDNs n r1 n.Province oidProvince
  let r3 := appendRDNs n r2 n.Locality oidLocality
  let r4 := appendRDNs n r3 n.StreetAddress oidStreetAddress
  let r5 := appendRDNs n r4 n.PostalCode oidPostalCode
  let r6 := appendRDNs n r5 n.Organization oidOrganization
  let r7 := appendRDNs n r6 n.OrganizationalUnit oidOrganizationalUnit
  let r8 := if n.CommonName.length > 0 then appendRDNs n r7 [n.CommonName] oidCommonName else r7
  let r9 := if n.SerialNumber.length > 0 then appendRDNs n r8 [n.SerialNumber] oidSerialNumber
    else r8
  r9 ++ n.ExtraNames.map fun atv => [atv]

/-- Number of base-128 digits of a positive number (at most `fuel` of them). -/
def base128IntLengthAux : Nat → Nat → Nat
  | 0, _ => 0
  | fuel + 1, n => if n = 0 then 0 else 1 + base128IntLengthAux fuel (n / 128)

/-- The function `base128IntLength` of `encoding/asn1`. -/
def base128IntLength (n : Nat) : Nat :=
  if n = 0 then 1 else base128IntLengthAux n n

/-- The function `appendBase128Int` of `encoding/asn1`. -/
def appendBase128Int (dst : List UInt8) (n : Nat) : List UInt8 :=
  dst ++ ((List.range (base128IntLength n)).reverse.map fun i =>
    UInt8.ofNat (if i ≠ 0 then (n >>> (i * 7)) % 128 + 128 else (n >>> (i * 7)) % 128))

/-- Number of base-256 digits of a number (at most `fuel` of them). -/
def lengthLengthAux : Nat → Nat → Nat
  | 0, _ => 0
  | fuel + 1, n => if n = 0 then 0 else 1 + lengthLengthAux fuel (n / 256)

/-- The function `lengthLength` of `encoding/asn1`. -/
def lengthLength (n : Nat) : Nat := lengthLengthAux n n

/-- The function `appendLength` of `encoding/asn1`: the big-endian base-256 digits. -/
def appendLength (dst : List UInt8) (n : Nat) : List UInt8 :=
  dst ++ ((List.range (lengthLength n)).reverse.map fun i => UInt8.ofNat ((n >>> (i * 8)) % 256))

/-- The function `appendTagAndLength` of `encoding/asn1`. -/
def appendTagAndLength (dst : List UInt8) (cls tag length : Nat) (isCompound : Bool) :
    List UInt8 :=
  let b := (cls % 4) * 64 + (if isCompound then 32 else 0)
  let d1 := if tag ≥ 31 then appendBase128Int (dst ++ [UInt8.ofNat (b + 31)]) tag
    else dst ++ [UInt8.ofNat (b + tag)]
  if length ≥ 128 then appendLength (d1 ++ [UInt8.ofNat (128 + lengthLength length)]) length
  else d1 ++ [UInt8.ofNat length]

/-- The function `makeObjectIdentifier` of `encoding/asn1`: the content bytes. -/
def makeObjectIdentifier : List Nat → Except GoError (List UInt8)
  | a :: b :: rest =>
    if a > 2 ∨ (a ≤ 1 ∧ b ≥ 40) then Except.error (GoError.other "asn1: invalid object identifier")
    else Except.ok (rest.foldl appendBase128Int (appendBase128Int [] (a * 40 + b)))
  | _ => Except.error (GoError.other "asn1: invalid object identifier")

/-- The function `isPrintable` of `encoding/asn1`, asterisk and ampersand rejected. -/
def isPrintable (b : UInt8) : Bool :=
  (97 ≤ b && b ≤ 122) || (65 ≤ b && b ≤ 90) || (48 ≤ b && b ≤ 57) ||
  (39 ≤ b && b ≤ 41) || (43 ≤ b && b ≤ 47) || b == 32 || b == 58 || b == 61 || b == 63

/-- A UTF-8 continuation byte. -/
def isCont (b : UInt8) : Bool := 0x80 ≤ b && b ≤ 0xBF

/-- The function `utf8.ValidString` of `unicode/utf8`. -/
def utf8Valid : List UInt8 → Bool
  | [] => true
  | b0 :: rest =>
    if b0 < 0x80 then utf8Valid rest
    else if 0xC2 ≤ b0 ∧ b0 ≤ 0xDF then
      match rest with
      | b1 :: r => isCont b1 && utf8Valid r
      | _ => false
    else if 0xE0 ≤ b0 ∧ b0 ≤ 0xEF then
      match rest with
      | b1 :: b2 :: r =>
        (if b0 = 0xE0 then 0xA0 ≤ b1 && b1 ≤ 0xBF
         else if b0 = 0xED then 0x80 ≤ b1 && b1 ≤ 0x9F
         else isCont b1) && isCont b2 && utf8Valid r
      | _ => false
    else if 0xF0 ≤ b0 ∧ b0 ≤ 0xF4 then
      match rest with
      | b1 :: b2 :: b3 :: r =>
        (if b0 = 0xF0 then 0x90 ≤ b1 && b1 ≤ 0xBF
         else if b0 = 0xF4 then 0x80 ≤ b1 && b1 ≤ 0x8F
         else isCont b1) && isCont b2 && isCont b3 && utf8Valid r
      | _ => false
    else false

/-- The encoding `makeField` of `encoding/asn1` gives a value held in an `any` field.
A string without an explicit string type becomes a PrintableString (tag 19) when all
its bytes are printable, otherwise a UTF8String (tag 12), and is refused when it is
not valid UTF-8.  An `asn1.RawValue` is written as it is: `FullBytes` when present,
otherwise its tag and length followed by `Bytes`; the bytes are not inspected. -/
def marshalAnyValue : AnyValue → Except GoError (List UInt8)
  | AnyValue.str s =>
    if s.all isPrintable then Except.ok (appendTagAndLength [] 0 19 s.length false ++ s)
    else if utf8Valid s then Except.ok (appendTagAndLength [] 0 12 s.length false ++ s)
    else Except.error (GoError.other "asn1: string not valid UTF-8")
  | AnyValue.raw rv =>
    if rv.FullBytes.length ≠ 0 then Except.ok rv.FullBytes
    else Except.ok (appendTagAndLength [] rv.Class rv.Tag rv.Bytes.length rv.IsCompound
      ++ rv.Bytes)

/-- The encoding of a `pkix.AttributeTypeAndValue`: a SEQUENCE of the object
identifier and the value. -/
def marshalATV (atv : AttributeTypeAndValue) : Except GoError (List UInt8) :=
  match makeObjectIdentifier atv.Typ, marshalAnyValue atv.Value with
  | Except.error e, _ => Except.error e
  | Except.ok _, Except.error e => Except.error e
  | Except.ok oid, Except.ok v =>
    let body := appendTagAndLength [] 0 6 oid.length false ++ oid ++ v
    Except.ok (appendTagAndLength [] 0 16 body.length true ++ body)

/-- Encode every element of a list, stopping at the first error. -/
def marshalAll {α : Type} (f : α → Except GoError (List UInt8)) :
    List α → Except GoError (List (List UInt8))
  | [] => Except.ok []
  | a :: rest =>
    match f a, marshalAll f rest with
    | Except.error e, _ => Except.error e
    | Except.ok _, Except.error e => Except.error e
    | Except.ok b, Except.ok bs => Except.ok (b :: bs)

/-- The function `bytes.Compare(a, b) <= 0`. -/
def bytesLE : List UInt8 → List UInt8 → Bool
  | [], _ => true
  | _ :: _, [] => false
  | a :: r, b :: t => a < b || (a == b && bytesLE r t)

/-- The encoding of a `pkix.RelativeDistinguishedNameSET`: a SET OF whose element
encodings are sorted when there are several. -/
def marshalRDN (rdn : List AttributeTypeAndValue) : Except GoError (List UInt8) :=
  match marshalAll marshalATV rdn with
  | Except.error e => Except.error e
  | Except.ok encs =>
    let body := (encs.insertionSort fun a b => bytesLE a b = true).flatten
    Except.ok (appendTagAndLength [] 0 17 body.length true ++ body)

/-- The encoding of a `pkix.RDNSequence`: a SEQUENCE OF its sets. -/
def marshalRDNSequence (rdns : List (List AttributeTypeAndValue)) :
    Except GoError (List UInt8) :=
  match marshalAll marshalRDN rdns with
  | Except.error e => Except.error e
  | Except.ok encs =>
    Except.ok (appendTagAndLength [] 0 16 encs.flatten.length true ++ encs.flatten)

/-! ## An executable system

`memSys` is an instance of `Sys` with an in-memory filesystem, used to run the
package on concrete inputs.  Its `Stat`, `MkdirAll` and `WriteFile` follow the
POSIX outcomes for existing, missing and non-directory paths.  Its request
builder encodes the subject as the library does (`marshalRDNSequence`); the
public key and the signature are placeholders, and so are the key encoding
and the PEM armour. -/

/-- A node of the in-memory filesystem. -/
inductive Node where
  | file (mode : Nat) (data : List UInt8)
  | dir (mode : Nat)
deriving DecidableEq

/-- The state of the in-memory system: the nodes by path (a list of path elements),
whether the filesystem is read-only, and the keys the random source will yield. -/
structure MemState where
  nodes : List (List GoString × Node)
  readOnly : Bool
  keys : List PrivateKey
deriving DecidableEq

/-- Split a byte string at every `'/'`. -/
def splitSlash : List UInt8 → List GoString
  | [] => [[]]
  | c :: cs =>
    if c = slash then [] :: splitSlash cs
    else
      match splitSlash cs with
      | [] => [[c]]
      | e :: es => (c :: e) :: es

/-- The path elements of a path, after `Clean`; the root and `.` have none. -/
def components (p : GoString) : List GoString :=
  (splitSlash (Clean p)).filter fun e => e ≠ [] ∧ e ≠ [dot]

/-- The error number `syscall.EISDIR`. -/
def EISDIR : Nat := 21

/-- Whether a path names a regular file. -/
def memIsFile (st : MemState) (p : List GoString) : Bool :=
  match st.nodes.lookup p with
  | some (Node.file _ _) => true
  | _ => false

/-- Whether a path names a directory; the root is one. -/
def memIsDir (st : MemState) (p : List GoString) : Bool :=
  p = [] ||
  match st.nodes.lookup p with
  | some (Node.dir _) => true
  | _ => false

/-- In-memory `os.Stat`: the node when it exists; `ENOTDIR` when an ancestor is a
regular file; `ENOENT` otherwise. -/
def memStat (st : MemState) (name : GoString) : Except GoError FileInfo :=
  if components name = [] then Except.ok ⟨true, 0o755⟩
  else
    match st.nodes.lookup (components name) with
    | some (Node.dir m) => Except.ok ⟨true, m⟩
    | some (Node.file m _) => Except.ok ⟨false, m⟩
    | none =>
      if (components name).inits.any (memIsFile st) then Except.error (GoError.errno ENOTDIR)
      else Except.error (GoError.errno ENOENT)

/-- One step of in-memory `MkdirAll`: make sure the ancestor `p` is a directory. -/
def memMkdirStep (perm : Nat) (acc : MemState × Option GoError) (p : List GoString) :
    MemState × Option GoError :=
  match acc.2 with
  | some _ => acc
  | none =>
    match acc.1.nodes.lookup p with
    | some (Node.dir _) => acc
    | some (Node.file _ _) => (acc.1, some (GoError.errno ENOTDIR))
    | none =>
      if acc.1.readOnly then (acc.1, some (GoError.errno EROFS))
      else ({ acc.1 with nodes := acc.1.nodes ++ [(p, Node.dir perm)] }, none)

/-- In-memory `os.MkdirAll`: create the missing ancestors, shortest first. -/
def memMkdirAll (st : MemState) (path : GoString) (perm : Nat) : MemState × Option GoError :=
  (components path).inits.tail.foldl (memMkdirStep perm) (st, none)

/-- In-memory `ioutil.WriteFile`: create or replace a regular file in an existing
directory. -/
def memWriteFile (st : MemState) (name : GoString) (data : List UInt8) (perm : Nat) :
    MemState × Option GoError :=
  match st.nodes.lookup (components name) with
  | some (Node.dir _) => (st, some (GoError.errno EISDIR))
  | some (Node.file m _) =>
    if st.readOnly then (st, some (GoError.errno EROFS))
    else ({ st with nodes := (st.nodes.filter fun e => e.1 ≠ components name)
              ++ [(components name, Node.file m data)] }, none)
  | none =>
    if components name = [] then (st, some (GoError.errno EISDIR))
    else if ¬ memIsDir st (components name).dropLast then
      (st, some (GoError.errno ENOENT))
    else if st.readOnly then (st, some (GoError.errno EROFS))
    else ({ st with nodes := st.nodes ++ [(components name, Node.file perm data)] }, none)

/-- In-memory `rsa.GenerateKey`: the next key of the random source, or an error
when the source is exhausted. -/
def memGenerateKey (st : MemState) (_bits : Nat) : MemState × Except GoError PrivateKey :=
  match st.keys with
  | [] => (st, Except.error (GoError.other "rand: source exhausted"))
  | k :: ks => ({ st with keys := ks }, Except.ok k)

/-- The big-endian base-256 digits of a number. -/
def natBytes (n : Nat) : List UInt8 := appendLength [] n

/-- Placeholder for `x509.MarshalPKCS1PrivateKey`: the three numbers of the key, each
preceded by its length. -/
def memMarshalPKCS1PrivateKey (k : PrivateKey) : List UInt8 :=
  appendTagAndLength [] 0 2 (natBytes k.N).length false ++ natBytes k.N ++
  appendTagAndLength [] 0 2 (natBytes k.E).length false ++ natBytes k.E ++
  appendTagAndLength [] 0 2 (natBytes k.D).length false ++ natBytes k.D

/-- Placeholder for `pem.EncodeToMemory`: the BEGIN line, the bytes, the END line
(the bytes are not base64-encoded). -/
def memEncodeToMemory (typ : GoString) (bytes : List UInt8) : List UInt8 :=
  lit "-----BEGIN " ++ typ ++ lit "-----\n" ++ bytes ++ lit "\n-----END " ++ typ ++ lit "-----\n"

/-- In-memory `x509.CreateCertificateRequest`.  The subject is `RawSubject` when
given and otherwise the library encoding of `Subject.ToRDNSequence()`, whose errors
are returned; a nil key, a signature algorithm other than SHA256WithRSA and a
modulus of fewer than 62 bytes (too short for a PKCS#1 v1.5 signature of a SHA-256
digest) are refused; the public key and the signature are placeholders (the
modulus). -/
def memCreateCertificateRequest (st : MemState) (template : CertificateRequest)
    (key : Option PrivateKey) : MemState × Except GoError (List UInt8) :=
  match key with
  | none => (st, Except.error (GoError.other "x509: nil private key"))
  | some k =>
    if template.SignatureAlgorithm ≠ SignatureAlgorithm.SHA256WithRSA then
      (st, Except.error (GoError.other "x509: unsupported signature algorithm"))
    else
      match (if template.RawSubject.length = 0
             then marshalRDNSequence (ToRDNSequence template.Subject)
             else Except.ok template.RawSubject) with
      | Except.error e => (st, Except.error e)
      | Except.ok asn1Subject =>
        if k.N < 256 ^ 61 then
          (st, Except.error (GoError.other "crypto/rsa: message too long for RSA key size"))
        else
        (st, Except.ok (appendTagAndLength [] 0 16
          (asn1Subject ++ natBytes k.N ++ natBytes k.N).length true
          ++ asn1Subject ++ natBytes k.N ++ natBytes k.N))

/-- The in-memory system; `env` is the process environment. -/
def memSys (env : GoString → GoString) : Sys MemState :=
  { Getenv := env
    Stat := memStat
    MkdirAll := memMkdirAll
    GenerateKey := memGenerateKey
    MarshalPKCS1PrivateKey := memMarshalPKCS1PrivateKey
    EncodeToMemory := memEncodeToMemory
    WriteFile := memWriteFile
    CreateCertificateRequest := memCreateCertificateRequest }

/-- The environment of the end-to-end scenario of the specification. -/
def exampleEnv (name : GoString) : GoString :=
  if name = lit "APP" then lit "pushservice"
  else if name = lit "APPLE_PUSH_TOPIC" then lit "com.example.app"
  else if name = lit "COUNTRY" then lit "US"
  else if name = lit "PROVINCE" then lit "CA"
  else if name = lit "LOCALITY" then lit "SF"
  else if name = lit "ORGANIZATION" then lit "Example"
  else if name = lit "EMAIL" then lit "ops@example.com"
  else if name = lit "DIR_CSR" then lit "out/csr"
  else if name = lit "DIR_DOWNLOADED" then lit "out/downloaded"
  else []

/-- The input of the end-to-end scenario of the specification. -/
def exampleInput : input :=
  newInput (lit "pushservice") (lit "com.example.app") (lit "US") (lit "CA") (lit "SF")
    (lit "Example") (lit "ops@example.com")

/-- The input of the scenario with the email `é`, the two bytes C3 A9. -/
def accentInput : input :=
  newInput (lit "pushservice") (lit "com.example.app") (lit "US") (lit "CA") (lit "SF")
    (lit "Example") [0xC3, 0xA9]

/-- The input of the scenario with the country FF, a byte that is not UTF-8. -/
def badCountryInput : input :=
  newInput (lit "pushservice") (lit "com.example.app") [0xFF] (lit "CA") (lit "SF")
    (lit "Example") (lit "ops@example.com")

/-- A 2048-bit RSA key for the examples. -/
def exampleKey : PrivateKey :=
  { N := 0xc2f0b37276e276626bb06cbc5fbaa13f03a85863bdcf239f32690d167ffa56afa243af349ee97639a3b18917f135efb9d6476432045a9d858b4d08c24af6af6a2f65f151e2536f60c6398e727ab2621975ce900f178bb723db9c3ab45f283a2c3b3baaa8d441ab5710aa737151322d65c49396bf68008e7a1e824dcf5a3d7fcb0ec9980cdc98e3a1c447e32ebec44fcb52266c33087ce2b94c67c4492cfd5e1fb796f8c7211647b835161a429f487e2311f663be5f5df18d14adf76e991c0cd50c82ad1aea1d58db0499e4514124e248068c4c52b4d28b5171fea46ee6ab642cf6cb500283df9f103f6021b8f7ede4683c14207b6946fcecb48617c38f9962eb
    E := 65537
    D := 0x71c96a15504b93ea930d620afa9dc76d2ec75f00a954756881564c6b6bbc4649329feb6efdab2c752c957e7e592fb0847b0d24f105159788d1ecdf45f9d7d0405cf6564c039dcc0f62e549be8cdbfee2f99edefbd0349f6bf0ce5a7dda6572bf4abbe33bb4d9b8179404ca69c489537269b1f4763950c9d9826170e5adb8e4142ff0441d23449b8f0e8bc7b915275e1a2254b2c0b004c73a3e7608dba9e84bfd8dab45588a8dc3581496aa3a1dd530506e08efcca955feb8aab4b8a4fec0a84ae14bd5fffa28df9069984c2fd899db1cceb1254c1a885c70a0872abb5325379f85a020d2f406021fd468726ca017fc89f8700eff53e08ca612dbfe69b5e71be1 }

/-- A filesystem holding the directory `out`, the directory `out/csr` and the
regular file `out/notes`. -/
def exampleState : MemState :=
  { nodes := [([lit "out"], Node.dir 0o755), ([lit "out", lit "csr"], Node.dir 0o700),
              ([lit "out", lit "notes"], Node.file 0o644 (lit "hello"))]
    readOnly := false
    keys := [exampleKey] }

/-- The start of a run on `exampleState`. -/
def exampleWorld : World MemState := ⟨exampleState, []⟩

/-- The start of a run on `exampleState` mounted read-only. -/
def readOnlyWorld : World MemState := ⟨{ exampleState with readOnly := true }, []⟩

/-! ## Facts about `createDirs` -/

theorem IsNotExist_none : IsNotExist none = false := rfl

theorem errOf_ok {α : Type} (a : α) : errOf (Except.ok a : Except GoError α) = none := rfl

theorem errOf_error {α : Type} (e : GoError) :
    errOf (Except.error e : Except GoError α) = some e := rfl

/-- A path whose `Stat` error is not "does not exist" (nil included) is skipped:
only the `Stat` call is made. -/
theorem createDirs_cons_skip (sys : Sys σ) (d : GoString) (ds : List GoString) (w : World σ)
    (h : IsNotExist (errOf (sys.Stat w.st d)) = false) :
    createDirs sys (d :: ds) w
      = createDirs sys ds ⟨w.st, w.trace ++ [Event.stat d (sys.Stat w.st d)]⟩ := by
  simp [createDirs, osStat, h]

/-- A path that does not exist and whose `MkdirAll` succeeds: the loop goes on in
the state `MkdirAll` left. -/
theorem createDirs_cons_mkdir_ok (sys : Sys σ) (d : GoString) (ds : List GoString)
    (w : World σ) (h : IsNotExist (errOf (sys.Stat w.st d)) = true)
    (hm : (sys.MkdirAll w.st d fileMode).2 = none) :
    createDirs sys (d :: ds) w
      = createDirs sys ds ⟨(sys.MkdirAll w.st d fileMode).1,
          w.trace ++ [Event.stat d (sys.Stat w.st d), Event.mkdirAll d fileMode none]⟩ := by
  simp [createDirs, osStat, osMkdirAll, h, hm]

/-- A path that does not exist and whose `MkdirAll` fails: the loop stops there. -/
theorem createDirs_cons_mkdir_err (sys : Sys σ) (d : GoString) (ds : List GoString)
    (w : World σ) (e : GoError) (h : IsNotExist (errOf (sys.Stat w.st d)) = true)
    (hm : (sys.MkdirAll w.st d fileMode).2 = some e) :
    createDirs sys (d :: ds) w
      = (⟨(sys.MkdirAll w.st d fileMode).1,
          w.trace ++ [Event.stat d (sys.Stat w.st d), Event.mkdirAll d fileMode (some e)]⟩,
         some e) := by
  simp [createDirs, osStat, osMkdirAll, h, hm]

/-- Processing `pre ++ post` when `pre` is processed without error. -/
theorem createDirs_append (sys : Sys σ) (pre post : List GoString) (w : World σ)
    (h : (createDirs sys pre w).2 = none) :
    createDirs sys (pre ++ post) w = createDirs sys post (createDirs sys pre w).1 := by
  induction pre generalizing w with
  | nil => simp [createDirs]
  | cons d ds ih =>
    cases hs : IsNotExist (errOf (sys.Stat w.st d)) with
    | false =>
      rw [List.cons_append, createDirs_cons_skip sys d _ w hs]
      rw [createDirs_cons_skip sys d _ w hs] at h
      rw [ih _ h, createDirs_cons_skip sys d ds w hs]
    | true =>
      cases hm : (sys.MkdirAll w.st d fileMode).2 with
      | none =>
        rw [List.cons_append, createDirs_cons_mkdir_ok sys d _ w hs hm]
        rw [createDirs_cons_mkdir_ok sys d _ w hs hm] at h
        rw [ih _ h, createDirs_cons_mkdir_ok sys d ds w hs hm]
      | some e =>
        rw [createDirs_cons_mkdir_err sys d _ w e hs hm] at h
        simp at h

/-- When `Stat` reports no path of the list as missing, `createDirs` only makes the
`Stat` calls: no error, the state of the system untouched. -/
theorem createDirs_none_missing (sys : Sys σ) (dirs : List GoString) (w : World σ)
    (h : ∀ d ∈ dirs, IsNotExist (errOf (sys.Stat w.st d)) = false) :
    createDirs sys dirs w
      = (⟨w.st, w.trace ++ dirs.map fun d => Event.stat d (sys.Stat w.st d)⟩, none) := by
  induction dirs generalizing w with
  | nil => simp [createDirs]
  | cons d ds ih =>
    rw [createDirs_cons_skip sys d ds w (h d (List.mem_cons_self d ds))]
    have hi := ih ⟨w.st, w.trace ++ [Event.stat d (sys.Stat w.st d)]⟩
      (fun x hx => h x (List.mem_cons_of_mem d hx))
    rw [hi]
    simp

/-! ## The claims about `createDirs` -/

/-- C5 (as stated, refuted): a list whose only path exists as a regular file.  `Stat`
succeeds, so the error is nil, `os.IsNotExist(nil)` is false, the path is skipped and
`createDirs` returns nil. -/
theorem C5_counterexample :
    memStat exampleWorld.st (lit "out/notes") = Except.ok ⟨false, 0o644⟩ ∧
    (createDirs (memSys exampleEnv) [lit "out/notes"] exampleWorld).2 = none := by
  decide

/-- C5 (amended): a path that exists is skipped whether it is a directory or a regular
file.  If `Stat` succeeds on every path of the list, `createDirs` returns nil, leaves
the state of the system unchanged and calls nothing but `Stat`. -/
theorem C5_createDirs_existing_paths_skipped (sys : Sys σ) (dirs : List GoString)
    (w : World σ) (h : ∀ d ∈ dirs, ∃ info, sys.Stat w.st d = Except.ok info) :
    (createDirs sys dirs w).2 = none ∧
    (createDirs sys dirs w).1.st = w.st ∧
    ∃ evs, (createDirs sys dirs w).1.trace = w.trace ++ evs ∧
      ∀ ev ∈ evs, ∃ d info, ev = Event.stat d (Except.ok info) := by
  have h0 : ∀ d ∈ dirs, IsNotExist (errOf (sys.Stat w.st d)) = false := by
    intro d hd
    obtain ⟨info, hi⟩ := h d hd
    rw [hi]; rfl
  rw [createDirs_none_missing sys dirs w h0]
  refine ⟨rfl, rfl, _, rfl, ?_⟩
  intro ev hev
  obtain ⟨d, hd, rfl⟩ := List.mem_map.mp hev
  obtain ⟨info, hi⟩ := h d hd
  exact ⟨d, info, by rw [hi]⟩

/-- Witness of C5 (amended): a list holding a directory and a regular file. -/
theorem C5_createDirs_existing_paths_skipped_witness :
    memStat exampleWorld.st (lit "out/notes") = Except.ok ⟨false, 0o644⟩ ∧
    (createDirs (memSys exampleEnv) [lit "out/csr", lit "out/notes"] exampleWorld).2 = none ∧
    (createDirs (memSys exampleEnv) [lit "out/csr", lit "out/notes"] exampleWorld).1.st
      = exampleWorld.st :=
  have h := C5_createDirs_existing_paths_skipped (memSys exampleEnv)
    [lit "out/csr", lit "out/notes"] exampleWorld (by
      intro d hd
      simp only [List.mem_cons, List.mem_singleton, List.not_mem_nil, or_false] at hd
      rcases hd with rfl | rfl
      · exact ⟨⟨true, 0o700⟩, by decide⟩
      · exact ⟨⟨false, 0o644⟩, by decide⟩)
  ⟨by decide, h.1, h.2.1⟩

/-- C6: when every path of the list already exists as a directory, `createDirs` returns
nil and leaves the state of the system unchanged: the only calls it makes are the
`Stat` calls, none of them `MkdirAll`.  Running it a second time again returns nil
and gives the same state as running it once. -/
theorem C6_createDirs_existing_dirs_unchanged (sys : Sys σ) (dirs : List GoString)
    (w : World σ)
    (h : ∀ d ∈ dirs, ∃ info, sys.Stat w.st d = Except.ok info ∧ info.IsDir = true) :
    (createDirs sys dirs w).2 = none ∧
    (createDirs sys dirs w).1.st = w.st ∧
    (createDirs sys dirs w).1.trace
      = w.trace ++ dirs.map (fun d => Event.stat d (sys.Stat w.st d)) ∧
    (∀ p perm err, Event.mkdirAll p perm err ∈ (createDirs sys dirs w).1.trace →
      Event.mkdirAll p perm err ∈ w.trace) ∧
    (createDirs sys dirs (createDirs sys dirs w).1).2 = none ∧
    (createDirs sys dirs (createDirs sys dirs w).1).1.st = (createDirs sys dirs w).1.st := by
  have h0 : ∀ d ∈ dirs, IsNotExist (errOf (sys.Stat w.st d)) = false := by
    intro d hd
    obtain ⟨info, hi, _⟩ := h d hd
    rw [hi]; rfl
  rw [createDirs_none_missing sys dirs w h0]
  refine ⟨rfl, rfl, rfl, ?_, ?_⟩
  · intro p perm err hm
    rcases List.mem_append.mp hm with hm | hm
    · exact hm
    · obtain ⟨d, _, hd⟩ := List.mem_map.mp hm
      cases hd
  · have h1 := createDirs_none_missing sys dirs
      ⟨w.st, w.trace ++ dirs.map fun d => Event.stat d (sys.Stat w.st d)⟩ h0
    exact ⟨by rw [h1], by rw [h1]⟩

/-- Witness of C6: the existing directories `out/csr` and `out`. -/
theorem C6_createDirs_existing_dirs_unchanged_witness :
    memStat exampleWorld.st (lit "out/csr") = Except.ok ⟨true, 0o700⟩ ∧
    memStat exampleWorld.st (lit "out") = Except.ok ⟨true, 0o755⟩ ∧
    (createDirs (memSys exampleEnv) [lit "out/csr", lit "out"] exampleWorld).2 = none ∧
    (createDirs (memSys exampleEnv) [lit "out/csr", lit "out"] exampleWorld).1.st
      = exampleWorld.st :=
  have h := C6_createDirs_existing_dirs_unchanged (memSys exampleEnv)
    [lit "out/csr", lit "out"] exampleWorld (by
      intro d hd
      simp only [List.mem_cons, List.mem_singleton, List.not_mem_nil, or_false] at hd
      rcases hd with rfl | rfl
      · exact ⟨⟨true, 0o700⟩, by decide, rfl⟩
      · exact ⟨⟨true, 0o755⟩, by decide, rfl⟩)
  ⟨by decide, by decide, h.1, h.2.1⟩

/-- C10: `createDirs` returns the error `e` in the world `w2` exactly when the list
splits as `pre ++ d :: post` where `pre` is processed without error, `Stat` reports
`d` as not existing in the state reached, and `MkdirAll` on `d` fails there with `e`.
The final world is the one the failed `MkdirAll` left: its state keeps what was
created for `pre` (no rollback) and its trace ends with that call (nothing of `post`
is processed).  A path whose `Stat` fails with any other error is skipped: the only
call made for it is `Stat`, and it is neither created nor reported. -/
theorem C10_createDirs_error_iff (sys : Sys σ) (dirs : List GoString) (w : World σ) :
    (∀ w2 e, createDirs sys dirs w = (w2, some e) ↔
      ∃ pre d post, dirs = pre ++ d :: post ∧
        (createDirs sys pre w).2 = none ∧
        IsNotExist (errOf (sys.Stat (createDirs sys pre w).1.st d)) = true ∧
        (sys.MkdirAll (createDirs sys pre w).1.st d fileMode).2 = some e ∧
        w2 = ⟨(sys.MkdirAll (createDirs sys pre w).1.st d fileMode).1,
              (createDirs sys pre w).1.trace ++
                [Event.stat d (sys.Stat (createDirs sys pre w).1.st d),
                 Event.mkdirAll d fileMode (some e)]⟩) ∧
    (∀ d e, sys.Stat w.st d = Except.error e → IsNotExist (some e) = false →
      createDirs sys (d :: dirs) w
        = createDirs sys dirs ⟨w.st, w.trace ++ [Event.stat d (Except.error e)]⟩ ∧
      createDirs sys [d] w = (⟨w.st, w.trace ++ [Event.stat d (Except.error e)]⟩, none)) := by
  constructor
  · intro w2 e
    constructor
    · intro h
      induction dirs generalizing w with
      | nil => simp [createDirs] at h
      | cons d ds ih =>
        cases hs : IsNotExist (errOf (sys.Stat w.st d)) with
        | false =>
          rw [createDirs_cons_skip sys d ds w hs] at h
          obtain ⟨pre, d2, post, hd, h1, h2, h3, h4⟩ := ih _ h
          refine ⟨d :: pre, d2, post, by rw [hd]; rfl, ?_⟩
          rw [createDirs_cons_skip sys d pre w hs]
          exact ⟨h1, h2, h3, h4⟩
        | true =>
          cases hm : (sys.MkdirAll w.st d fileMode).2 with
          | none =>
            rw [createDirs_cons_mkdir_ok sys d ds w hs hm] at h
            obtain ⟨pre, d2, post, hd, h1, h2, h3, h4⟩ := ih _ h
            refine ⟨d :: pre, d2, post, by rw [hd]; rfl, ?_⟩
            rw [createDirs_cons_mkdir_ok sys d pre w hs hm]
            exact ⟨h1, h2, h3, h4⟩
          | some e2 =>
            rw [createDirs_cons_mkdir_err sys d ds w e2 hs hm] at h
            obtain ⟨hw, he⟩ := Prod.mk.inj h
            have he2 : e2 = e := Option.some.inj he
            subst he2
            exact ⟨[], d, ds, rfl, rfl, hs, hm, hw.symm⟩
    · rintro ⟨pre, d, post, hd, h1, h2, h3, h4⟩
      rw [hd, createDirs_append sys pre (d :: post) w h1,
        createDirs_cons_mkdir_err sys d post _ e h2 h3, h4]
  · intro d e hst hne
    have hs : IsNotExist (errOf (sys.Stat w.st d)) = false := by rw [hst]; exact hne
    constructor
    · rw [createDirs_cons_skip sys d dirs w hs, hst]
    · rw [createDirs_cons_skip sys d [] w hs, hst]; rfl

/-- Witness of C10.  On a read-only filesystem the list `out/csr`, `a/b`, `c` fails at
`a/b` with the error of `MkdirAll`, and `c` is never looked at.  The path
`out/notes/sub` lies below a regular file: its `Stat` fails with `ENOTDIR`, which is
not "does not exist", and `createDirs` returns nil although it is no directory. -/
theorem C10_createDirs_error_iff_witness :
    createDirs (memSys exampleEnv) [lit "out/csr", lit "a/b", lit "c"] readOnlyWorld
      = (⟨readOnlyWorld.st,
          [Event.stat (lit "out/csr") (Except.ok ⟨true, 0o700⟩),
           Event.stat (lit "a/b") (Except.error (GoError.errno ENOENT)),
           Event.mkdirAll (lit "a/b") fileMode (some (GoError.errno EROFS))]⟩,
         some (GoError.errno EROFS)) ∧
    memStat exampleWorld.st (lit "out/notes/sub") = Except.error (GoError.errno ENOTDIR) ∧
    createDirs (memSys exampleEnv) [lit "out/notes/sub"] exampleWorld
      = (⟨exampleWorld.st,
          [Event.stat (lit "out/notes/sub") (Except.error (GoError.errno ENOTDIR))]⟩, none) :=
  ⟨((C10_createDirs_error_iff (memSys exampleEnv) [lit "out/csr", lit "a/b", lit "c"]
      readOnlyWorld).1 _ _).mpr
      ⟨[lit "out/csr"], lit "a/b", [lit "c"], by decide, by decide, by decide, by decide,
        by decide⟩,
   by decide,
   ((C10_createDirs_error_iff (memSys exampleEnv) [] exampleWorld).2 (lit "out/notes/sub")
      (GoError.errno ENOTDIR) (by decide) (by decide)).2⟩

/-! ## Facts about `path.Clean` and `path.Join` -/

theorem cleanLoop_nil (rooted : Bool) (fuel : Nat) (out : List UInt8) (dotdot : Nat) :
    cleanLoop rooted fuel [] out dotdot = out := by
  cases fuel <;> rfl

/-- An empty path element is dropped. -/
theorem cleanLoop_slash (rooted : Bool) (fuel : Nat) (rest out : List UInt8) (dotdot : Nat) :
    cleanLoop rooted (fuel + 1) (slash :: rest) out dotdot
      = cleanLoop rooted fuel rest out dotdot := by
  simp [cleanLoop]

/-- A real path element `e` (no slash, not empty, not `.` and not `..`) that is
followed by a slash or by the end of the path is copied to the output, after a
separating slash when the output already holds an element. -/
theorem cleanLoop_elem (rooted : Bool) (fuel : Nat) (e tl out : List UInt8) (dotdot : Nat)
    (hne : e ≠ []) (hs : ∀ b ∈ e, b ≠ slash) (h1 : e ≠ [dot]) (h2 : e ≠ [dot, dot])
    (ht : tl = [] ∨ tl.head? = some slash) :
    cleanLoop rooted (fuel + 1) (e ++ tl) out dotdot
      = cleanLoop rooted fuel tl
          ((if (rooted = true ∧ out.length ≠ 1) ∨ (¬ rooted = true ∧ out.length ≠ 0)
              then out ++ [slash] else out) ++ e) dotdot := by
  have htl : tl.takeWhile (fun b => decide (b ≠ slash)) = [] ∧
      tl.dropWhile (fun b => decide (b ≠ slash)) = tl := by
    rcases ht with rfl | ht
    · simp
    · cases tl with
      | nil => simp
      | cons t ts =>
        have : t = slash := by simpa using ht
        subst this
        simp
  have hp : ∀ a ∈ e, (fun b => decide (b ≠ slash)) a = true := by
    intro a ha
    simpa using hs a ha
  have htake : (e ++ tl).takeWhile (fun b => decide (b ≠ slash)) = e := by
    rw [List.takeWhile_append_of_pos hp, htl.1, List.append_nil]
  have hdrop : (e ++ tl).dropWhile (fun b => decide (b ≠ slash)) = tl := by
    rw [List.dropWhile_append_of_pos hp, htl.2]
  cases e with
  | nil => exact absurd rfl hne
  | cons c e1 =>
    have hc : c ≠ slash := hs c (List.mem_cons_self c e1)
    have hhead : ∀ x, (e1 ++ tl).head? = some x → x = slash ∨ x ∈ e1 := by
      intro x hx
      cases e1 with
      | nil =>
        rcases ht with rfl | ht
        · simp at hx
        · left
          simp only [List.nil_append] at hx
          rw [ht] at hx
          exact (Option.some.inj hx).symm
      | cons y ys =>
        right
        simp only [List.cons_append, List.head?_cons] at hx
        rw [← Option.some.inj hx]
        exact List.mem_cons_self y ys
    have c2 : ¬ (c = dot ∧ (e1 ++ tl = [] ∨ (e1 ++ tl).head? = some slash)) := by
      rintro ⟨hd, h | h⟩
      · have he1 : e1 = [] := (List.append_eq_nil.mp h).1
        exact h1 (by rw [hd, he1])
      · cases e1 with
        | nil => exact h1 (by rw [hd])
        | cons y ys =>
          simp only [List.cons_append, List.head?_cons] at h
          exact hs y (by simp) (Option.some.inj h)
    have c3 : ¬ (c = dot ∧ (e1 ++ tl).head? = some dot ∧
        ((e1 ++ tl).tail = [] ∨ (e1 ++ tl).tail.head? = some slash)) := by
      rintro ⟨hd, hh, h⟩
      cases e1 with
      | nil =>
        rcases ht with rfl | ht
        · simp at hh
        · simp only [List.nil_append] at hh
          rw [ht] at hh
          exact absurd (Option.some.inj hh) (by decide)
      | cons y ys =>
        simp only [List.cons_append, List.head?_cons] at hh
        have hy : y = dot := Option.some.inj hh
        simp only [List.cons_append, List.tail_cons] at h
        rcases h with h | h
        · have hys : ys = [] := (List.append_eq_nil.mp h).1
          exact h2 (by rw [hd, hy, hys])
        · cases ys with
          | nil => exact h2 (by rw [hd, hy])
          | cons z zs =>
            simp only [List.cons_append, List.head?_cons] at h
            exact hs z (by simp) (Option.some.inj h)
    rw [List.cons_append] at htake hdrop ⊢
    rw [cleanLoop, if_neg hc, if_neg c2, if_neg c3, htake, hdrop]

/-- Dropping the bytes before the first slash keeps everything from a later slash on. -/
theorem dropWhile_before_slash (last : List UInt8) (q : List UInt8) :
    ∃ q2, (q ++ slash :: last).dropWhile (fun b => decide (b ≠ slash)) = q2 ++ slash :: last := by
  induction q with
  | nil => exact ⟨[], by simp⟩
  | cons a q ih =>
    by_cases ha : a = slash
    · subst ha
      exact ⟨slash :: q, by simp⟩
    · obtain ⟨q2, hq2⟩ := ih
      exact ⟨q2, by rw [List.cons_append, List.dropWhile_cons_of_pos (by simpa using ha), hq2]⟩

/-- The last element of a path survives `cleanLoop`: when the unread part of the path
ends with a real element `last` that starts the unread part or follows a slash, the
output ends with `last`. -/
theorem cleanLoop_last (rooted : Bool) (last : List UInt8)
    (hne : last ≠ []) (hs : ∀ b ∈ last, b ≠ slash) (h1 : last ≠ [dot])
    (h2 : last ≠ [dot, dot]) :
    ∀ (fuel : Nat) (rest out : List UInt8) (dotdot : Nat), rest.length ≤ fuel →
      (rest = last ∨ ∃ q, rest = q ++ slash :: last) →
      ∃ o, cleanLoop rooted fuel rest out dotdot = o ++ last := by
  intro fuel
  induction fuel with
  | zero =>
    intro rest out dotdot hlen hinv
    have hr : rest = [] := List.length_eq_zero.mp (Nat.le_zero.mp hlen)
    subst hr
    rcases hinv with h | ⟨q, h⟩
    · exact absurd h.symm hne
    · simp at h
  | succ fuel ih =>
    intro rest out dotdot hlen hinv
    rcases hinv with h | ⟨q, hq⟩
    · subst h
      have := cleanLoop_elem rooted fuel rest [] out dotdot hne hs h1 h2 (Or.inl rfl)
      rw [List.append_nil] at this
      rw [this, cleanLoop_nil]
      exact ⟨_, rfl⟩
    · cases rest with
      | nil => simp at hq
      | cons c rest1 =>
        have hlen1 : rest1.length ≤ fuel := by simpa using hlen
        rw [cleanLoop]
        split_ifs with hc c2 c3 hb hr
        · -- empty element
          cases q with
          | nil =>
            simp only [List.nil_append, List.cons.injEq] at hq
            exact ih rest1 out dotdot hlen1 (Or.inl hq.2)
          | cons a q1 =>
            simp only [List.cons_append, List.cons.injEq] at hq
            exact ih rest1 out dotdot hlen1 (Or.inr ⟨q1, hq.2⟩)
        · -- . element
          cases q with
          | nil =>
            simp only [List.nil_append, List.cons.injEq] at hq
            exact absurd hq.1 hc
          | cons a q1 =>
            simp only [List.cons_append, List.cons.injEq] at hq
            exact ih rest1 out dotdot hlen1 (Or.inr ⟨q1, hq.2⟩)
        all_goals
          first
          | ( -- .. element
             have hinv2 : ∃ q2, rest1.tail = q2 ++ slash :: last := by
               cases q with
               | nil =>
                 simp only [List.nil_append, List.cons.injEq] at hq
                 exact absurd hq.1 hc
               | cons a q1 =>
                 simp only [List.cons_append, List.cons.injEq] at hq
                 cases q1 with
                 | nil =>
                   have h3 := c3.2.1
                   rw [hq.2] at h3
                   simp only [List.nil_append, List.head?_cons] at h3
                   exact absurd (Option.some.inj h3) (by decide)
                 | cons b q2 =>
                   exact ⟨q2, by rw [hq.2]; rfl⟩
             have hlen2 : rest1.tail.length ≤ fuel := by
               rw [List.length_tail]; omega
             exact ih _ _ _ hlen2 (Or.inr hinv2))
          | ( -- real element
             cases q with
             | nil =>
               simp only [List.nil_append, List.cons.injEq] at hq
               exact absurd hq.1 hc
             | cons a q1 =>
               simp only [List.cons_append, List.cons.injEq] at hq
               have hd : (c :: rest1).dropWhile (fun b => decide (b ≠ slash))
                   = rest1.dropWhile (fun b => decide (b ≠ slash)) :=
                 List.dropWhile_cons_of_pos (by simpa using hc)
               obtain ⟨q2, hq2⟩ := dropWhile_before_slash last q1
               rw [← hq.2] at hq2
               have hlen2 : (rest1.dropWhile (fun b => decide (b ≠ slash))).length ≤ fuel :=
                 le_trans (List.dropWhile_sublist _).length_le hlen1
               rw [hd]
               exact ih _ _ _ hlen2 (Or.inr ⟨q2, hq2⟩))

/-- The last element of a path survives `Clean`. -/
theorem Clean_last (last path : List UInt8)
    (hne : last ≠ []) (hs : ∀ b ∈ last, b ≠ slash) (h1 : last ≠ [dot])
    (h2 : last ≠ [dot, dot]) (hinv : path = last ∨ ∃ q, path = q ++ slash :: last) :
    ∃ o, Clean path = o ++ last := by
  have hp : path ≠ [] := by
    rcases hinv with h | ⟨q, h⟩
    · rw [h]; exact hne
    · rw [h]; simp
  have key : ∀ (rooted : Bool) (rest out : List UInt8) (dotdot : Nat),
      rest.length ≤ path.length → (rest = last ∨ ∃ q, rest = q ++ slash :: last) →
      ∃ o, (if (cleanLoop rooted path.length rest out dotdot).length = 0 then [dot]
            else cleanLoop rooted path.length rest out dotdot) = o ++ last := by
    intro rooted rest out dotdot hlen hr
    obtain ⟨o, ho⟩ := cleanLoop_last rooted last hne hs h1 h2 path.length rest out dotdot hlen hr
    refine ⟨o, ?_⟩
    rw [ho, if_neg]
    simp [hne]
  unfold Clean
  rw [if_neg hp]
  by_cases hr : path.head? = some slash
  · simp only [hr, decide_True, if_true]
    apply key
    · rw [List.length_tail]; omega
    · rcases hinv with h | ⟨q, h⟩
      · subst h
        cases path with
        | nil => exact absurd rfl hne
        | cons c cs =>
          simp only [List.head?_cons, Option.some.injEq] at hr
          exact absurd hr (hs c (List.mem_cons_self c cs))
      · cases q with
        | nil => left; rw [h]; rfl
        | cons a q1 => right; exact ⟨q1, by rw [h]; rfl⟩
  · simp only [hr, decide_False, if_false]
    apply key
    · exact le_refl _
    · exact hinv

/-- A byte string `B ++ s` is `l0 ++ s` for a slash-free `l0`, or ends with a slash
followed by such an `l0 ++ s`. -/
theorem split_last_element (s B : List UInt8) :
    ∃ l0, (∀ b ∈ l0, b ≠ slash) ∧
      (B ++ s = l0 ++ s ∨ ∃ q, B ++ s = q ++ slash :: (l0 ++ s)) := by
  induction B with
  | nil => exact ⟨[], by simp, Or.inl rfl⟩
  | cons a B ih =>
    obtain ⟨l0, hl0, h | ⟨q, h⟩⟩ := ih
    · by_cases ha : a = slash
      · exact ⟨l0, hl0, Or.inr ⟨[], by rw [List.cons_append, h, ha]; rfl⟩⟩
      · refine ⟨a :: l0, ?_, Or.inl (by rw [List.cons_append, h]; rfl)⟩
        intro b hb
        rcases List.mem_cons.mp hb with rfl | hb
        · exact ha
        · exact hl0 b hb
    · exact ⟨l0, hl0, Or.inr ⟨a :: q, by rw [List.cons_append, h]; rfl⟩⟩

/-- The function `path.Join` on two elements, the second not empty. -/
theorem Join_two (dir x : GoString) (hx : x ≠ []) :
    Join [dir, x] = Clean (if dir = [] then x else dir ++ slash :: x) := by
  have hlen : x.length ≠ 0 := fun h => hx (List.length_eq_zero.mp h)
  by_cases hd : dir = []
  · subst hd
    simp [Join, joinBuf, hx, hlen]
  · have hdl : dir.length ≠ 0 := fun h => hd (List.length_eq_zero.mp h)
    simp [Join, joinBuf, hd, hlen, hdl, Nat.pos_of_ne_zero hdl]

/-- A path built by `path.Join` from a directory and a file name that ends with a
slash-free suffix of three bytes or more ends with that suffix. -/
theorem Join_suffix (dir app s : GoString) (hs : ∀ b ∈ s, b ≠ slash) (h3 : 3 ≤ s.length) :
    ∃ o, Join [dir, app ++ s] = o ++ s := by
  have hsne : s ≠ [] := by
    intro h; rw [h] at h3; simp at h3
  have hx : app ++ s ≠ [] := by simp [hsne]
  rw [Join_two dir (app ++ s) hx]
  have hB : ∃ B, (if dir = [] then app ++ s else dir ++ slash :: (app ++ s)) = B ++ s := by
    by_cases hd : dir = []
    · exact ⟨app, by rw [if_pos hd]⟩
    · exact ⟨dir ++ slash :: app, by rw [if_neg hd]; simp⟩
  obtain ⟨B, hB⟩ := hB
  obtain ⟨l0, hl0, hsplit⟩ := split_last_element s B
  have hlast : ∀ b ∈ l0 ++ s, b ≠ slash := by
    intro b hb
    rcases List.mem_append.mp hb with hb | hb
    · exact hl0 b hb
    · exact hs b hb
  have hlen : 3 ≤ (l0 ++ s).length := by rw [List.length_append]; omega
  have hne : l0 ++ s ≠ [] := by simp [hsne]
  have h1 : l0 ++ s ≠ [dot] := by
    intro h; rw [h] at hlen; simp at hlen
  have h2 : l0 ++ s ≠ [dot, dot] := by
    intro h; rw [h] at hlen; simp at hlen
  rw [hB]
  obtain ⟨o, ho⟩ := Clean_last (l0 ++ s) (B ++ s) hne hlast h1 h2 hsplit
  exact ⟨o ++ l0, by rw [ho, List.append_assoc]⟩

/-- The path of the key file and the path of the request file are never equal: the
first ends with `.key`, the second with `.csr`. -/
theorem keyPath_ne_csrPath (dir app : GoString) :
    keyPath dir app ≠ csrPath dir app := by
  unfold keyPath csrPath
  obtain ⟨o1, h1⟩ := Join_suffix dir app (lit ".key") (by decide) (by decide)
  obtain ⟨o2, h2⟩ := Join_suffix dir app (lit ".csr") (by decide) (by decide)
  intro h
  rw [h1, h2] at h
  have hl := congrArg List.getLast? h
  have e1 : (lit ".key").getLast? = some 121 := by decide
  have e2 : (lit ".csr").getLast? = some 114 := by decide
  rw [List.getLast?_append, List.getLast?_append, e1, e2] at hl
  simp at hl

/-- The bound on the iterations of `cleanLoop` plays no part once it is at least the
number of unread bytes, as it is in `Clean`: the loop ends by reading the whole
path. -/
theorem cleanLoop_fuel (rooted : Bool) :
    ∀ (f1 f2 : Nat) (rest out : List UInt8) (dotdot : Nat),
      rest.length ≤ f1 → rest.length ≤ f2 →
      cleanLoop rooted f1 rest out dotdot = cleanLoop rooted f2 rest out dotdot := by
  intro f1
  induction f1 with
  | zero =>
    intro f2 rest out dotdot h1 _
    have hr : rest = [] := List.length_eq_zero.mp (Nat.le_zero.mp h1)
    subst hr
    rw [cleanLoop_nil, cleanLoop_nil]
  | succ f1 ih =>
    intro f2 rest out dotdot h1 h2
    cases rest with
    | nil => rw [cleanLoop_nil, cleanLoop_nil]
    | cons c rest1 =>
      cases f2 with
      | zero => simp at h2
      | succ f2 =>
        have hl1 : rest1.length ≤ f1 := by simpa using h1
        have hl2 : rest1.length ≤ f2 := by simpa using h2
        have ht : rest1.tail.length ≤ rest1.length := by rw [List.length_tail]; omega
        rw [cleanLoop, cleanLoop]
        split_ifs with hc
        all_goals
          first
          | exact ih f2 _ _ _ hl1 hl2
          | exact ih f2 _ _ _ (le_trans ht hl1) (le_trans ht hl2)
          | ( have hd : ((c :: rest1).dropWhile (fun b => decide (b ≠ slash))).length
                  ≤ rest1.length := by
                rw [List.dropWhile_cons_of_pos (by simpa using hc)]
                exact (List.dropWhile_sublist _).length_le
              exact ih f2 _ _ _ (le_trans hd hl1) (le_trans hd hl2))

theorem isPlain_iff (e : GoString) :
    isPlain e = true ↔ e ≠ [] ∧ (∀ b ∈ e, b ≠ slash) ∧ e ≠ [dot] ∧ e ≠ [dot, dot] := by
  simp [isPlain, and_assoc]

/-- The step of `cleanLoop` on a plain element, for any sufficient bound. -/
theorem cleanLoop_plain (rooted : Bool) (fuel : Nat) (e tl out : List UInt8) (dotdot : Nat)
    (he : isPlain e = true) (ht : tl = [] ∨ tl.head? = some slash)
    (hf : (e ++ tl).length ≤ fuel) :
    cleanLoop rooted fuel (e ++ tl) out dotdot
      = cleanLoop rooted tl.length tl
          ((if (rooted = true ∧ out.length ≠ 1) ∨ (¬ rooted = true ∧ out.length ≠ 0)
              then out ++ [slash] else out) ++ e) dotdot := by
  obtain ⟨hne, hs, h1, h2⟩ := (isPlain_iff e).mp he
  have hpos : 0 < e.length := List.length_pos.mpr hne
  rw [List.length_append] at hf
  obtain ⟨f, rfl⟩ : ∃ f, fuel = f + 1 := ⟨fuel - 1, by omega⟩
  rw [cleanLoop_elem rooted f e tl out dotdot hne hs h1 h2 ht]
  exact cleanLoop_fuel rooted f tl.length tl _ dotdot (by omega) (le_refl _)

/-- On a path made of plain elements separated by single slashes, `cleanLoop` copies
the path to the output. -/
theorem cleanLoop_plain_path (rooted : Bool) (x : GoString) (hx : isPlain x = true) :
    ∀ (el : List GoString) (fuel : Nat) (out : List UInt8) (dotdot : Nat),
      (∀ e ∈ el, isPlain e = true) → (rooted = true → 1 ≤ out.length) →
      (el.foldr (fun e acc => e ++ slash :: acc) x).length ≤ fuel →
      cleanLoop rooted fuel (el.foldr (fun e acc => e ++ slash :: acc) x) out dotdot
        = (if (rooted = true ∧ out.length ≠ 1) ∨ (¬ rooted = true ∧ out.length ≠ 0)
            then out ++ [slash] else out) ++ el.foldr (fun e acc => e ++ slash :: acc) x := by
  intro el
  induction el with
  | nil =>
    intro fuel out dotdot _ _ hf
    simp only [List.foldr_nil] at hf ⊢
    have := cleanLoop_plain rooted fuel x [] out dotdot hx (Or.inl rfl)
      (by rw [List.append_nil]; exact hf)
    rw [List.append_nil] at this
    rw [this, cleanLoop_nil]
  | cons e el ih =>
    intro fuel out dotdot hel hr hf
    simp only [List.foldr_cons] at hf ⊢
    have he : isPlain e = true := hel e (List.mem_cons_self e el)
    obtain ⟨hne, _, _, _⟩ := (isPlain_iff e).mp he
    have hpos : 0 < e.length := List.length_pos.mpr hne
    rw [cleanLoop_plain rooted fuel e (slash :: el.foldr (fun e acc => e ++ slash :: acc) x)
      out dotdot he (Or.inr rfl) hf]
    rw [List.length_cons, cleanLoop_slash]
    rw [ih _ _ dotdot (fun a ha => hel a (List.mem_cons_of_mem e ha)) ?_ (le_refl _)]
    · have hcond : (rooted = true ∧
          ((if (rooted = true ∧ out.length ≠ 1) ∨ (¬ rooted = true ∧ out.length ≠ 0)
            then out ++ [slash] else out) ++ e).length ≠ 1) ∨
          (¬ rooted = true ∧
          ((if (rooted = true ∧ out.length ≠ 1) ∨ (¬ rooted = true ∧ out.length ≠ 0)
            then out ++ [slash] else out) ++ e).length ≠ 0) := by
        cases rooted with
        | true =>
          left
          have := hr rfl
          refine ⟨rfl, ?_⟩
          split_ifs <;> simp only [List.length_append, List.length_singleton] <;> omega
        | false =>
          right
          refine ⟨by simp, ?_⟩
          simp only [List.length_append]
          omega
      rw [if_pos hcond]
      simp
    · intro _
      simp only [List.length_append]
      omega

/-- Joining plain elements with slashes, and appending a slash and `x`. -/
theorem intercalate_slash_append (x : GoString) :
    ∀ (el : List GoString), el ≠ [] →
      List.intercalate [slash] el ++ slash :: x
        = el.foldr (fun e acc => e ++ slash :: acc) x := by
  intro el
  induction el with
  | nil => intro h; exact absurd rfl h
  | cons e el ih =>
    intro _
    cases el with
    | nil => simp [List.intercalate]
    | cons e2 el2 =>
      have := ih (by simp)
      simp only [List.foldr_cons] at this ⊢
      rw [← this]
      simp [List.intercalate]

/-- For a directory made of plain elements separated by single slashes, with or
without a leading slash, and a plain file name, `path.Join` is the concatenation with
one slash between them. -/
theorem Join_plain_dir (el : List GoString) (dir x : GoString) (hel : el ≠ [])
    (hp : ∀ e ∈ el, isPlain e = true) (hx : isPlain x = true)
    (hdir : dir = List.intercalate [slash] el ∨ dir = slash :: List.intercalate [slash] el) :
    Join [dir, x] = dir ++ slash :: x := by
  obtain ⟨hxne, _, _, _⟩ := (isPlain_iff x).mp hx
  have hhead : (el.foldr (fun e acc => e ++ slash :: acc) x).head? ≠ some slash := by
    cases el with
    | nil => exact absurd rfl hel
    | cons e es =>
      obtain ⟨hne, hs, _, _⟩ := (isPlain_iff e).mp (hp e (List.mem_cons_self e es))
      cases e with
      | nil => exact absurd rfl hne
      | cons c cs =>
        simp only [List.foldr_cons, List.cons_append, List.head?_cons, ne_eq,
          Option.some.injEq]
        exact hs c (List.mem_cons_self c cs)
  have hpne : el.foldr (fun e acc => e ++ slash :: acc) x ≠ [] := by
    cases el with
    | nil => exact absurd rfl hel
    | cons e es => simp
  rcases hdir with hd | hd
  · have hdne : dir ≠ [] := by
      intro h
      have h2 := intercalate_slash_append x el hel
      rw [← hd, h] at h2
      rw [← h2] at hhead
      simp at hhead
    rw [Join_two dir x hxne, if_neg hdne, hd, intercalate_slash_append x el hel]
    unfold Clean
    rw [if_neg hpne]
    simp only [hhead, decide_False, if_false, Bool.false_eq_true]
    rw [cleanLoop_plain_path false x hx el _ [] 0 hp (by simp) (le_refl _)]
    simp [hpne]
  · have hdne : dir ≠ [] := by rw [hd]; simp
    rw [Join_two dir x hxne, if_neg hdne, hd, List.cons_append,
      intercalate_slash_append x el hel]
    unfold Clean
    rw [if_neg (by simp)]
    simp only [List.head?_cons, decide_True, if_true, List.tail_cons]
    rw [cleanLoop_plain_path true x hx el _ [slash] 1 hp (by simp) (by simp)]
    simp

/-! ## Facts about the key stage, the request stage and `Creation` -/

/-- Key generation fails: the error is returned with a nil key and nothing is written. -/
theorem createAndWritePrivateKey_gen_error (sys : Sys σ) (app dirCSR : GoString)
    (w : World σ) (e : GoError) (h : (sys.GenerateKey w.st 2048).2 = Except.error e) :
    createAndWritePrivateKey sys app dirCSR w
      = (⟨(sys.GenerateKey w.st 2048).1,
          w.trace ++ [Event.generateKey 2048 (Except.error e)]⟩, none, some e) := by
  simp only [createAndWritePrivateKey, rsaGenerateKey, h]

/-- Key generation succeeds: the key file is written once, and the result follows
the outcome of that write. -/
theorem createAndWritePrivateKey_gen_ok (sys : Sys σ) (app dirCSR : GoString)
    (w : World σ) (key : PrivateKey) (h : (sys.GenerateKey w.st 2048).2 = Except.ok key) :
    createAndWritePrivateKey sys app dirCSR w
      = (⟨(sys.WriteFile (sys.GenerateKey w.st 2048).1 (keyPath dirCSR app)
            (pemPrivateKey sys key) fileMode).1,
          w.trace ++ [Event.generateKey 2048 (Except.ok key),
            Event.writeFile (keyPath dirCSR app) (pemPrivateKey sys key) fileMode
              (sys.WriteFile (sys.GenerateKey w.st 2048).1 (keyPath dirCSR app)
                (pemPrivateKey sys key) fileMode).2]⟩,
         (if (sys.WriteFile (sys.GenerateKey w.st 2048).1 (keyPath dirCSR app)
                (pemPrivateKey sys key) fileMode).2 = none then some key else none),
         (sys.WriteFile (sys.GenerateKey w.st 2048).1 (keyPath dirCSR app)
            (pemPrivateKey sys key) fileMode).2) := by
  simp only [createAndWritePrivateKey, rsaGenerateKey, h, ioutilWriteFile]
  cases hw : (sys.WriteFile (sys.GenerateKey w.st 2048).1 (keyPath dirCSR app)
      (pemPrivateKey sys key) fileMode).2 <;> simp

/-- The request builder fails: the error is returned and nothing is written. -/
theorem createAndWriteCSR_req_error (sys : Sys σ) (i : input) (key : Option PrivateKey)
    (dirCSR : GoString) (w : World σ) (e : GoError)
    (h : (sys.CreateCertificateRequest w.st (template i) key).2 = Except.error e) :
    createAndWriteCSR sys i key dirCSR w
      = (⟨(sys.CreateCertificateRequest w.st (template i) key).1,
          w.trace ++ [Event.createCertificateRequest (template i) key (Except.error e)]⟩,
         some e) := by
  simp only [createAndWriteCSR, x509CreateCertificateRequest, h]

/-- The request builder succeeds: the request file is written once, and the result is
the outcome of that write. -/
theorem createAndWriteCSR_req_ok (sys : Sys σ) (i : input) (key : Option PrivateKey)
    (dirCSR : GoString) (w : World σ) (csrBytes : List UInt8)
    (h : (sys.CreateCertificateRequest w.st (template i) key).2 = Except.ok csrBytes) :
    createAndWriteCSR sys i key dirCSR w
      = (⟨(sys.WriteFile (sys.CreateCertificateRequest w.st (template i) key).1
            (csrPath dirCSR i.app) (cr sys csrBytes) fileMode).1,
          w.trace ++ [Event.createCertificateRequest (template i) key (Except.ok csrBytes),
            Event.writeFile (csrPath dirCSR i.app) (cr sys csrBytes) fileMode
              (sys.WriteFile (sys.CreateCertificateRequest w.st (template i) key).1
                (csrPath dirCSR i.app) (cr sys csrBytes) fileMode).2]⟩,
         (sys.WriteFile (sys.CreateCertificateRequest w.st (template i) key).1
            (csrPath dirCSR i.app) (cr sys csrBytes) fileMode).2) := by
  simp only [createAndWriteCSR, x509CreateCertificateRequest, h, ioutilWriteFile]
  cases hw : (sys.WriteFile (sys.CreateCertificateRequest w.st (template i) key).1
      (csrPath dirCSR i.app) (cr sys csrBytes) fileMode).2 <;> simp

/-- In `Creation`, an error of the key stage ends the run there. -/
theorem Creation_key_error (sys : Sys σ) (w : World σ) (e : GoError)
    (h : (createAndWritePrivateKey sys (envInput sys).app (envDirCSR sys) w).2.2 = some e) :
    Creation sys w
      = ((createAndWritePrivateKey sys (envInput sys).app (envDirCSR sys) w).1,
         Outcome.fatal e) := by
  unfold Creation
  generalize createAndWritePrivateKey sys (envInput sys).app (envDirCSR sys) w = r at h ⊢
  obtain ⟨w1, k, err⟩ := r
  simp only at h
  subst h
  rfl

/-- In `Creation`, after a key stage without error the request stage runs on the
returned key, and its result is the result of the run. -/
theorem Creation_key_ok (sys : Sys σ) (w : World σ)
    (h : (createAndWritePrivateKey sys (envInput sys).app (envDirCSR sys) w).2.2 = none) :
    Creation sys w
      = ((createAndWriteCSR sys (envInput sys)
            (createAndWritePrivateKey sys (envInput sys).app (envDirCSR sys) w).2.1
            (envDirCSR sys)
            (createAndWritePrivateKey sys (envInput sys).app (envDirCSR sys) w).1).1,
         match (createAndWriteCSR sys (envInput sys)
            (createAndWritePrivateKey sys (envInput sys).app (envDirCSR sys) w).2.1
            (envDirCSR sys)
            (createAndWritePrivateKey sys (envInput sys).app (envDirCSR sys) w).1).2 with
         | some e => Outcome.fatal e
         | none => Outcome.returned) := by
  unfold Creation
  generalize createAndWritePrivateKey sys (envInput sys).app (envDirCSR sys) w = r at h ⊢
  obtain ⟨w1, k, err⟩ := r
  simp only at h
  subst h
  simp only
  generalize createAndWriteCSR sys (envInput sys) k (envDirCSR sys) w1 = r2
  obtain ⟨w2, err2⟩ := r2
  cases err2 <;> rfl

/-! ## The claims about the request and the key -/

/-- C1: the first call `createAndWriteCSR` makes is the call of the request builder,
with the template built from the input, and it calls the builder once.  The subject
of that template has CommonName equal to the push-topic identifier, and Country,
Province, Locality and Organization each equal to the one-element list holding the
input string as it is, so an empty input gives a list with one empty element; the
raw subject is empty, so the builder uses these fields. -/
theorem C1_subject_fields (sys : Sys σ) (i : input) (key : Option PrivateKey)
    (dirCSR : GoString) (w : World σ) :
    (∃ res rest, (createAndWriteCSR sys i key dirCSR w).1.trace
        = w.trace ++ Event.createCertificateRequest (template i) key res :: rest ∧
        ∀ ev ∈ rest, ∃ n d p e, ev = Event.writeFile n d p e) ∧
    (template i).RawSubject = [] ∧
    (template i).Subject.CommonName = i.applePushTopic ∧
    (template i).Subject.Country = [i.country] ∧
    (template i).Subject.Province = [i.province] ∧
    (template i).Subject.Locality = [i.locality] ∧
    (template i).Subject.Organization = [i.organization] ∧
    (template i).Subject.Country.length = 1 ∧
    (template i).Subject.Province.length = 1 ∧
    (template i).Subject.Locality.length = 1 ∧
    (template i).Subject.Organization.length = 1 := by
  refine ⟨?_, rfl, rfl, rfl, rfl, rfl, rfl, rfl, rfl, rfl, rfl⟩
  cases h : (sys.CreateCertificateRequest w.st (template i) key).2 with
  | error e =>
    rw [createAndWriteCSR_req_error sys i key dirCSR w e h]
    exact ⟨_, [], rfl, by simp⟩
  | ok csrBytes =>
    rw [createAndWriteCSR_req_ok sys i key dirCSR w csrBytes h]
    refine ⟨Except.ok csrBytes, [Event.writeFile _ _ _ _], rfl, ?_⟩
    intro ev hev
    exact ⟨_, _, _, _, List.mem_singleton.mp hev⟩

/-- C2: the subject of the template handed to the request builder carries exactly one
extra name.  Its type is the object identifier 1.2.840.113549.1.9.1, its value is a
raw value with tag 22 (IA5String) of the universal class whose bytes are the bytes of
the input email, whatever they are.  The email appears nowhere else in the
template: no request attribute, no extension, no email address list. -/
theorem C2_email_attribute (sys : Sys σ) (i : input) (key : Option PrivateKey)
    (dirCSR : GoString) (w : World σ) :
    (∃ res rest, (createAndWriteCSR sys i key dirCSR w).1.trace
        = w.trace ++ Event.createCertificateRequest (template i) key res :: rest ∧
        ∀ ev ∈ rest, ∃ n d p e, ev = Event.writeFile n d p e) ∧
    (template i).Subject.ExtraNames
      = [{ Typ := [1, 2, 840, 113549, 1, 9, 1]
           Value := AnyValue.raw
             { Class := 0, Tag := 22, IsCompound := false, Bytes := i.email,
               FullBytes := [] } }] ∧
    TagIA5String = 22 ∧
    (template i).Subject.Names = [] ∧
    (template i).Attributes = [] ∧
    (template i).ExtraExtensions = [] ∧
    (template i).EmailAddresses = [] := by
  refine ⟨?_, rfl, rfl, rfl, rfl, rfl, rfl⟩
  cases h : (sys.CreateCertificateRequest w.st (template i) key).2 with
  | error e =>
    rw [createAndWriteCSR_req_error sys i key dirCSR w e h]
    exact ⟨_, [], rfl, by simp⟩
  | ok csrBytes =>
    rw [createAndWriteCSR_req_ok sys i key dirCSR w csrBytes h]
    refine ⟨Except.ok csrBytes, [Event.writeFile _ _ _ _], rfl, ?_⟩
    intro ev hev
    exact ⟨_, _, _, _, List.mem_singleton.mp hev⟩

/-- C3 (as stated, refuted): the input of the scenario with the email `é`, the two
bytes C3 A9, both outside the ASCII range.  `createAndWriteCSR` returns nil and the
request file exists afterwards: the library writes the bytes of a raw value into the
encoding as they are. -/
theorem C3_counterexample :
    (∃ b ∈ accentInput.email, 0x80 ≤ b) ∧
    (createAndWriteCSR (memSys exampleEnv) accentInput (some exampleKey) (lit "out/csr")
      exampleWorld).2 = none ∧
    memStat (createAndWriteCSR (memSys exampleEnv) accentInput (some exampleKey)
      (lit "out/csr") exampleWorld).1.st (lit "out/csr/pushservice.csr")
      = Except.ok ⟨false, fileMode⟩ ∧
    marshalAnyValue (AnyValue.raw
      { Class := 0, Tag := 22, IsCompound := false, Bytes := accentInput.email,
        FullBytes := [] })
      = Except.ok [0x16, 0x02, 0xC3, 0xA9] := by
  refine ⟨⟨0xC3, by decide, by decide⟩, by decide, by decide, by decide⟩

/-- C3 (amended): `createAndWriteCSR` does not look at the bytes of the email; it
hands them to the request builder as they are.  It returns an error exactly when the
builder or the write of the request file returns one, and that error is the one
returned.  When the builder fails, the builder call is the only call made: no
request file is written. -/
theorem C3_request_errors (sys : Sys σ) (i : input) (key : Option PrivateKey)
    (dirCSR : GoString) (w : World σ) :
    (template i).Subject.ExtraNames
      = [{ Typ := [1, 2, 840, 113549, 1, 9, 1]
           Value := AnyValue.raw
             { Class := 0, Tag := 22, IsCompound := false, Bytes := i.email,
               FullBytes := [] } }] ∧
    (∀ e, (createAndWriteCSR sys i key dirCSR w).2 = some e ↔
      (sys.CreateCertificateRequest w.st (template i) key).2 = Except.error e ∨
      ∃ csrBytes, (sys.CreateCertificateRequest w.st (template i) key).2 = Except.ok csrBytes ∧
        (sys.WriteFile (sys.CreateCertificateRequest w.st (template i) key).1
          (csrPath dirCSR i.app) (cr sys csrBytes) fileMode).2 = some e) ∧
    (∀ e, (sys.CreateCertificateRequest w.st (template i) key).2 = Except.error e →
      createAndWriteCSR sys i key dirCSR w
        = (⟨(sys.CreateCertificateRequest w.st (template i) key).1,
            w.trace ++ [Event.createCertificateRequest (template i) key (Except.error e)]⟩,
           some e)) := by
  refine ⟨rfl, ?_, ?_⟩
  · intro e
    cases h : (sys.CreateCertificateRequest w.st (template i) key).2 with
    | error e2 =>
      rw [createAndWriteCSR_req_error sys i key dirCSR w e2 h]
      simp
    | ok csrBytes =>
      rw [createAndWriteCSR_req_ok sys i key dirCSR w csrBytes h]
      simp
  · intro e h
    exact createAndWriteCSR_req_error sys i key dirCSR w e h

/-- Witness of C3 (amended): an input whose country is the byte FF, which is not
UTF-8, makes the builder fail, and nothing is written; on a read-only filesystem
the error of the write is returned. -/
theorem C3_request_errors_witness :
    createAndWriteCSR (memSys exampleEnv) badCountryInput (some exampleKey) (lit "out/csr")
        exampleWorld
      = (⟨exampleState,
          [Event.createCertificateRequest (template badCountryInput) (some exampleKey)
            (Except.error (GoError.other "asn1: string not valid UTF-8"))]⟩,
         some (GoError.other "asn1: string not valid UTF-8")) ∧
    (createAndWriteCSR (memSys exampleEnv) exampleInput (some exampleKey) (lit "out/csr")
        readOnlyWorld).2 = some (GoError.errno EROFS) :=
  ⟨(C3_request_errors (memSys exampleEnv) badCountryInput (some exampleKey) (lit "out/csr")
      exampleWorld).2.2 _ (by decide),
   ((C3_request_errors (memSys exampleEnv) exampleInput (some exampleKey) (lit "out/csr")
      readOnlyWorld).2.1 _).mpr (Or.inr ⟨_, rfl, by decide⟩)⟩

/-- C4: in a run of `Creation` that returns, the random source is asked for a key
once; `createAndWritePrivateKey` returns that key; the key file receives the PEM
block of the PKCS#1 encoding of that key; and the request builder is called with
that same key.  The run makes these four calls and no other. -/
theorem C4_signing_key_is_persisted_key (sys : Sys σ) (w : World σ)
    (h : (Creation sys w).2 = Outcome.returned) :
    ∃ key csrBytes,
      (sys.GenerateKey w.st 2048).2 = Except.ok key ∧
      (createAndWritePrivateKey sys (envInput sys).app (envDirCSR sys) w).2
        = (some key, none) ∧
      pemPrivateKey sys key
        = sys.EncodeToMemory (lit "RSA PRIVATE KEY") (sys.MarshalPKCS1PrivateKey key) ∧
      (Creation sys w).1.trace = w.trace ++
        [Event.generateKey 2048 (Except.ok key),
         Event.writeFile (keyPath (envDirCSR sys) (envInput sys).app)
           (pemPrivateKey sys key) fileMode none,
         Event.createCertificateRequest (template (envInput sys)) (some key)
           (Except.ok csrBytes),
         Event.writeFile (csrPath (envDirCSR sys) (envInput sys).app)
           (cr sys csrBytes) fileMode none] := by
  cases hg : (sys.GenerateKey w.st 2048).2 with
  | error e =>
    have hk := createAndWritePrivateKey_gen_error sys (envInput sys).app (envDirCSR sys) w e hg
    rw [Creation_key_error sys w e (by rw [hk])] at h
    cases h
  | ok key =>
    have hk := createAndWritePrivateKey_gen_ok sys (envInput sys).app (envDirCSR sys) w key hg
    cases hw : (sys.WriteFile (sys.GenerateKey w.st 2048).1
        (keyPath (envDirCSR sys) (envInput sys).app) (pemPrivateKey sys key) fileMode).2 with
    | some e =>
      rw [hw] at hk
      rw [Creation_key_error sys w e (by rw [hk])] at h
      cases h
    | none =>
      rw [hw] at hk
      simp only [if_true] at hk
      have hc := Creation_key_ok sys w (by rw [hk])
      rw [hk] at hc
      simp only at hc
      cases hr : (sys.CreateCertificateRequest
          (sys.WriteFile (sys.GenerateKey w.st 2048).1
            (keyPath (envDirCSR sys) (envInput sys).app) (pemPrivateKey sys key) fileMode).1
          (template (envInput sys)) (some key)).2 with
      | error e =>
        rw [createAndWriteCSR_req_error sys (envInput sys) (some key) (envDirCSR sys) _ e hr]
          at hc
        rw [hc] at h
        cases h
      | ok csrBytes =>
        rw [createAndWriteCSR_req_ok sys (envInput sys) (some key) (envDirCSR sys) _
          csrBytes hr] at hc
        simp only at hc
        cases hw2 : (sys.WriteFile (sys.CreateCertificateRequest
            (sys.WriteFile (sys.GenerateKey w.st 2048).1
              (keyPath (envDirCSR sys) (envInput sys).app) (pemPrivateKey sys key)
              fileMode).1
            (template (envInput sys)) (some key)).1
            (csrPath (envDirCSR sys) (envInput sys).app) (cr sys csrBytes) fileMode).2 with
        | some e =>
          rw [hw2] at hc
          rw [hc] at h
          cases h
        | none =>
          rw [hw2] at hc
          refine ⟨key, csrBytes, rfl, by rw [hk], rfl, ?_⟩
          rw [hc]
          simp

/-- Witness of C4: the scenario of the specification on the example filesystem. -/
theorem C4_signing_key_is_persisted_key_witness :
    (Creation (memSys exampleEnv) exampleWorld).2 = Outcome.returned ∧
    ∃ key csrBytes,
      (createAndWritePrivateKey (memSys exampleEnv) (lit "pushservice") (lit "out/csr")
        exampleWorld).2 = (some key, none) ∧
      (Creation (memSys exampleEnv) exampleWorld).1.trace =
        [Event.generateKey 2048 (Except.ok key),
         Event.writeFile (lit "out/csr/pushservice.key")
           (pemPrivateKey (memSys exampleEnv) key) fileMode none,
         Event.createCertificateRequest (template exampleInput) (some key)
           (Except.ok csrBytes),
         Event.writeFile (lit "out/csr/pushservice.csr")
           (cr (memSys exampleEnv) csrBytes) fileMode none] := by
  have h : (Creation (memSys exampleEnv) exampleWorld).2 = Outcome.returned := by decide
  obtain ⟨key, csrBytes, _, h2, _, h4⟩ :=
    C4_signing_key_is_persisted_key (memSys exampleEnv) exampleWorld h
  exact ⟨h, key, csrBytes, h2, h4⟩

/-! ## The calls each function makes -/

/-- The calls of `createDirs`: `Stat` calls and `MkdirAll` calls with `fileMode`. -/
theorem createDirs_trace (sys : Sys σ) (dirs : List GoString) (w : World σ) :
    ∃ evs, (createDirs sys dirs w).1.trace = w.trace ++ evs ∧
      ∀ ev ∈ evs, (∃ d r, ev = Event.stat d r) ∨ ∃ d err, ev = Event.mkdirAll d fileMode err := by
  induction dirs generalizing w with
  | nil => exact ⟨[], by simp [createDirs], by simp⟩
  | cons d ds ih =>
    cases hs : IsNotExist (errOf (sys.Stat w.st d)) with
    | false =>
      rw [createDirs_cons_skip sys d ds w hs]
      obtain ⟨evs, h1, h2⟩ := ih ⟨w.st, w.trace ++ [Event.stat d (sys.Stat w.st d)]⟩
      refine ⟨Event.stat d (sys.Stat w.st d) :: evs, by rw [h1]; simp, ?_⟩
      intro ev hev
      rcases List.mem_cons.mp hev with rfl | hev
      · exact Or.inl ⟨_, _, rfl⟩
      · exact h2 ev hev
    | true =>
      cases hm : (sys.MkdirAll w.st d fileMode).2 with
      | none =>
        rw [createDirs_cons_mkdir_ok sys d ds w hs hm]
        obtain ⟨evs, h1, h2⟩ := ih ⟨(sys.MkdirAll w.st d fileMode).1,
          w.trace ++ [Event.stat d (sys.Stat w.st d), Event.mkdirAll d fileMode none]⟩
        refine ⟨Event.stat d (sys.Stat w.st d) :: Event.mkdirAll d fileMode none :: evs,
          by rw [h1]; simp, ?_⟩
        intro ev hev
        rcases List.mem_cons.mp hev with rfl | hev
        · exact Or.inl ⟨_, _, rfl⟩
        · rcases List.mem_cons.mp hev with rfl | hev
          · exact Or.inr ⟨_, _, rfl⟩
          · exact h2 ev hev
      | some e =>
        rw [createDirs_cons_mkdir_err sys d ds w e hs hm]
        refine ⟨[Event.stat d (sys.Stat w.st d), Event.mkdirAll d fileMode (some e)], rfl, ?_⟩
        intro ev hev
        rcases List.mem_cons.mp hev with rfl | hev
        · exact Or.inl ⟨_, _, rfl⟩
        · exact Or.inr ⟨_, _, List.mem_singleton.mp hev⟩

/-- The calls of `createAndWritePrivateKey`: at most two, one key generation and then
at most one write, of the key file with `fileMode`. -/
theorem createAndWritePrivateKey_trace (sys : Sys σ) (app dirCSR : GoString) (w : World σ) :
    ∃ evs, (createAndWritePrivateKey sys app dirCSR w).1.trace = w.trace ++ evs ∧
      evs.length ≤ 2 ∧
      ∀ ev ∈ evs, (∃ r, ev = Event.generateKey 2048 r) ∨
        ∃ data err, ev = Event.writeFile (keyPath dirCSR app) data fileMode err := by
  cases hg : (sys.GenerateKey w.st 2048).2 with
  | error e =>
    rw [createAndWritePrivateKey_gen_error sys app dirCSR w e hg]
    refine ⟨[_], rfl, by simp, ?_⟩
    intro ev hev
    exact Or.inl ⟨_, List.mem_singleton.mp hev⟩
  | ok key =>
    rw [createAndWritePrivateKey_gen_ok sys app dirCSR w key hg]
    refine ⟨[_, _], rfl, by simp, ?_⟩
    intro ev hev
    rcases List.mem_cons.mp hev with rfl | hev
    · exact Or.inl ⟨_, rfl⟩
    · exact Or.inr ⟨_, _, List.mem_singleton.mp hev⟩

/-- The calls of `createAndWriteCSR`: at most two, one call of the request builder
and then at most one write, of the request file with `fileMode`. -/
theorem createAndWriteCSR_trace (sys : Sys σ) (i : input) (key : Option PrivateKey)
    (dirCSR : GoString) (w : World σ) :
    ∃ evs, (createAndWriteCSR sys i key dirCSR w).1.trace = w.trace ++ evs ∧
      evs.length ≤ 2 ∧
      ∀ ev ∈ evs, (∃ r, ev = Event.createCertificateRequest (template i) key r) ∨
        ∃ data err, ev = Event.writeFile (csrPath dirCSR i.app) data fileMode err := by
  cases hg : (sys.CreateCertificateRequest w.st (template i) key).2 with
  | error e =>
    rw [createAndWriteCSR_req_error sys i key dirCSR w e hg]
    refine ⟨[_], rfl, by simp, ?_⟩
    intro ev hev
    exact Or.inl ⟨_, List.mem_singleton.mp hev⟩
  | ok csrBytes =>
    rw [createAndWriteCSR_req_ok sys i key dirCSR w csrBytes hg]
    refine ⟨[_, _], rfl, by simp, ?_⟩
    intro ev hev
    rcases List.mem_cons.mp hev with rfl | hev
    · exact Or.inl ⟨_, rfl⟩
    · exact Or.inr ⟨_, _, List.mem_singleton.mp hev⟩

/-! ## The claims about paths, errors and the permission mode -/

/-- C9: `fileMode` is the octal constant 0700: owner read, write and execute set,
every group and other bit clear.  It is the permission of every `MkdirAll` call of
`createDirs` and of every `WriteFile` call of `createAndWritePrivateKey` and of
`createAndWriteCSR`, whatever the input and the system. -/
theorem C9_fileMode_owner_only (sys : Sys σ) (dirs : List GoString) (i : input)
    (key : Option PrivateKey) (app dirCSR : GoString) (w : World σ) :
    fileMode = 0o700 ∧ fileMode = 448 ∧
    fileMode &&& 0o077 = 0 ∧ fileMode &&& 0o700 = 0o700 ∧
    (∃ evs, (createDirs sys dirs w).1.trace = w.trace ++ evs ∧
      ∀ p perm err, Event.mkdirAll p perm err ∈ evs → perm = fileMode) ∧
    (∃ evs, (createAndWritePrivateKey sys app dirCSR w).1.trace = w.trace ++ evs ∧
      ∀ n d perm err, Event.writeFile n d perm err ∈ evs → perm = fileMode) ∧
    (∃ evs, (createAndWriteCSR sys i key dirCSR w).1.trace = w.trace ++ evs ∧
      ∀ n d perm err, Event.writeFile n d perm err ∈ evs → perm = fileMode) := by
  refine ⟨rfl, by decide, by decide, by decide, ?_, ?_, ?_⟩
  · obtain ⟨evs, h1, h2⟩ := createDirs_trace sys dirs w
    refine ⟨evs, h1, ?_⟩
    intro p perm err hev
    rcases h2 _ hev with ⟨d, r, h⟩ | ⟨d, e, h⟩
    · cases h
    · cases h; rfl
  · obtain ⟨evs, h1, _, h2⟩ := createAndWritePrivateKey_trace sys app dirCSR w
    refine ⟨evs, h1, ?_⟩
    intro n d perm err hev
    rcases h2 _ hev with ⟨r, h⟩ | ⟨d2, e, h⟩
    · cases h
    · cases h; rfl
  · obtain ⟨evs, h1, _, h2⟩ := createAndWriteCSR_trace sys i key dirCSR w
    refine ⟨evs, h1, ?_⟩
    intro n d perm err hev
    rcases h2 _ hev with ⟨r, h⟩ | ⟨d2, e, h⟩
    · cases h
    · cases h; rfl

/-- C7: the key file is written to `path.Join(dir, app + ".key")` and the request file
to `path.Join(dir, app + ".csr")`: these are the names of all the `WriteFile` calls of
the two functions, and the calls are made once the key, respectively the request,
exists.  The names are functions of `dir` and `app` alone: a run on any other
system, state, key and input with the same `app` writes to the same names.  The two
names are never equal.  When `dir` is made of plain path elements separated by single
slashes, with or without a leading slash, and `app` holds no slash, the names are
`dir/app.key` and `dir/app.csr` byte for byte. -/
theorem C7_output_paths (sys : Sys σ) (st : σ) (i : input) (key : Option PrivateKey)
    (dir : GoString) :
    (∀ n d p e, Event.writeFile n d p e ∈
        (createAndWritePrivateKey sys i.app dir ⟨st, []⟩).1.trace →
      n = Join [dir, i.app ++ lit ".key"]) ∧
    (∀ n d p e, Event.writeFile n d p e ∈ (createAndWriteCSR sys i key dir ⟨st, []⟩).1.trace →
      n = Join [dir, i.app ++ lit ".csr"]) ∧
    (∀ k, (sys.GenerateKey st 2048).2 = Except.ok k →
      ∃ e, Event.writeFile (Join [dir, i.app ++ lit ".key"]) (pemPrivateKey sys k) fileMode e
        ∈ (createAndWritePrivateKey sys i.app dir ⟨st, []⟩).1.trace) ∧
    (∀ c, (sys.CreateCertificateRequest st (template i) key).2 = Except.ok c →
      ∃ e, Event.writeFile (Join [dir, i.app ++ lit ".csr"]) (cr sys c) fileMode e
        ∈ (createAndWriteCSR sys i key dir ⟨st, []⟩).1.trace) ∧
    (∀ (τ : Type) (sys2 : Sys τ) (st2 : τ) (i2 : input) (key2 : Option PrivateKey),
      i2.app = i.app →
      (∀ n d p e, Event.writeFile n d p e ∈
          (createAndWritePrivateKey sys2 i2.app dir ⟨st2, []⟩).1.trace →
        n = Join [dir, i.app ++ lit ".key"]) ∧
      (∀ n d p e, Event.writeFile n d p e ∈
          (createAndWriteCSR sys2 i2 key2 dir ⟨st2, []⟩).1.trace →
        n = Join [dir, i.app ++ lit ".csr"])) ∧
    Join [dir, i.app ++ lit ".key"] ≠ Join [dir, i.app ++ lit ".csr"] ∧
    (∀ el : List GoString, el ≠ [] → (∀ e ∈ el, isPlain e = true) →
      (dir = List.intercalate [slash] el ∨ dir = slash :: List.intercalate [slash] el) →
      (∀ b ∈ i.app, b ≠ slash) →
      Join [dir, i.app ++ lit ".key"] = dir ++ slash :: (i.app ++ lit ".key") ∧
      Join [dir, i.app ++ lit ".csr"] = dir ++ slash :: (i.app ++ lit ".csr")) := by
  have hkey : ∀ (τ : Type) (s : Sys τ) (t : τ) (app : GoString) (n : GoString)
      (d : List UInt8) (p : Nat) (e : Option GoError),
      Event.writeFile n d p e ∈ (createAndWritePrivateKey s app dir ⟨t, []⟩).1.trace →
      n = Join [dir, app ++ lit ".key"] := by
    intro τ s t app n d p e hev
    obtain ⟨evs, h1, _, h2⟩ := createAndWritePrivateKey_trace s app dir ⟨t, []⟩
    rw [h1] at hev
    simp only [List.nil_append] at hev
    rcases h2 _ hev with ⟨r, h⟩ | ⟨d2, e2, h⟩
    · cases h
    · cases h; rfl
  have hcsr : ∀ (τ : Type) (s : Sys τ) (t : τ) (j : input) (k : Option PrivateKey)
      (n : GoString) (d : List UInt8) (p : Nat) (e : Option GoError),
      Event.writeFile n d p e ∈ (createAndWriteCSR s j k dir ⟨t, []⟩).1.trace →
      n = Join [dir, j.app ++ lit ".csr"] := by
    intro τ s t j k n d p e hev
    obtain ⟨evs, h1, _, h2⟩ := createAndWriteCSR_trace s j k dir ⟨t, []⟩
    rw [h1] at hev
    simp only [List.nil_append] at hev
    rcases h2 _ hev with ⟨r, h⟩ | ⟨d2, e2, h⟩
    · cases h
    · cases h; rfl
  refine ⟨hkey σ sys st i.app, hcsr σ sys st i key, ?_, ?_, ?_, keyPath_ne_csrPath dir i.app, ?_⟩
  · intro k hk
    rw [createAndWritePrivateKey_gen_ok sys i.app dir ⟨st, []⟩ k hk]
    exact ⟨(sys.WriteFile (sys.GenerateKey st 2048).1 (keyPath dir i.app)
      (pemPrivateKey sys k) fileMode).2, by simp [keyPath]⟩
  · intro c hc
    rw [createAndWriteCSR_req_ok sys i key dir ⟨st, []⟩ c hc]
    exact ⟨(sys.WriteFile (sys.CreateCertificateRequest st (template i) key).1
      (csrPath dir i.app) (cr sys c) fileMode).2, by simp [csrPath]⟩
  · intro τ sys2 st2 i2 key2 happ
    constructor
    · rw [← happ]; exact hkey τ sys2 st2 i2.app
    · rw [← happ]; exact hcsr τ sys2 st2 i2 key2
  · intro el hel hp hdir happ
    have hx : ∀ s : GoString, (∀ b ∈ s, b ≠ slash) → 3 ≤ s.length →
        Join [dir, i.app ++ s] = dir ++ slash :: (i.app ++ s) := by
      intro s hs h3
      have hlen : 3 ≤ (i.app ++ s).length := by rw [List.length_append]; omega
      apply Join_plain_dir el dir (i.app ++ s) hel hp _ hdir
      rw [isPlain_iff]
      refine ⟨?_, ?_, ?_, ?_⟩
      · intro h; rw [h] at hlen; simp at hlen
      · intro b hb
        rcases List.mem_append.mp hb with hb | hb
        · exact happ b hb
        · exact hs b hb
      · intro h; rw [h] at hlen; simp at hlen
      · intro h; rw [h] at hlen; simp at hlen
    exact ⟨hx (lit ".key") (by decide) (by decide), hx (lit ".csr") (by decide) (by decide)⟩

/-- Witness of C7: the scenario of the specification, directory `out/csr`. -/
theorem C7_output_paths_witness :
    Join [lit "out/csr", lit "pushservice" ++ lit ".key"] = lit "out/csr/pushservice.key" ∧
    Join [lit "out/csr", lit "pushservice" ++ lit ".csr"] = lit "out/csr/pushservice.csr" ∧
    (∃ e, Event.writeFile (Join [lit "out/csr", lit "pushservice" ++ lit ".key"])
        (pemPrivateKey (memSys exampleEnv) exampleKey) fileMode e
      ∈ (createAndWritePrivateKey (memSys exampleEnv) exampleInput.app (lit "out/csr")
          ⟨exampleState, []⟩).1.trace) ∧
    (∃ c e, Event.writeFile (Join [lit "out/csr", lit "pushservice" ++ lit ".csr"])
        (cr (memSys exampleEnv) c) fileMode e
      ∈ (createAndWriteCSR (memSys exampleEnv) exampleInput (some exampleKey) (lit "out/csr")
          ⟨exampleState, []⟩).1.trace) :=
  have h := (C7_output_paths (memSys exampleEnv) exampleState exampleInput (some exampleKey)
    (lit "out/csr")).2.2.2.2.2.2 [lit "out", lit "csr"] (by decide) (by decide)
    (Or.inl (by decide)) (by decide)
  ⟨h.1, h.2,
   (C7_output_paths (memSys exampleEnv) exampleState exampleInput (some exampleKey)
    (lit "out/csr")).2.2.1 exampleKey (by decide),
   ⟨_, (C7_output_paths (memSys exampleEnv) exampleState exampleInput (some exampleKey)
    (lit "out/csr")).2.2.2.1 _ rfl⟩⟩

/-- C8: errors are returned at once and nothing is tried twice.
`createAndWritePrivateKey` returns the error and a nil key when key generation fails
(then nothing is written) or when the write of the key file fails, and the key with
a nil error otherwise; so the key is nil exactly when the error is not.
`createAndWriteCSR` returns the error when the request builder fails or when the write
of the request file fails.  Each of the two makes at most two calls.  In `Creation`
an error of the key stage ends the run in the world the key stage left: the calls
of the run are those of the key stage, none of them a call of the request builder
or a write of the request file. -/
theorem C8_errors_surface (sys : Sys σ) (i : input) (key : Option PrivateKey)
    (app dirCSR : GoString) (w : World σ) :
    (∀ e, (sys.GenerateKey w.st 2048).2 = Except.error e →
      createAndWritePrivateKey sys app dirCSR w
        = (⟨(sys.GenerateKey w.st 2048).1,
            w.trace ++ [Event.generateKey 2048 (Except.error e)]⟩, none, some e)) ∧
    (∀ k e, (sys.GenerateKey w.st 2048).2 = Except.ok k →
      (sys.WriteFile (sys.GenerateKey w.st 2048).1 (keyPath dirCSR app)
        (pemPrivateKey sys k) fileMode).2 = some e →
      (createAndWritePrivateKey sys app dirCSR w).2 = (none, some e)) ∧
    (∀ k, (sys.GenerateKey w.st 2048).2 = Except.ok k →
      (sys.WriteFile (sys.GenerateKey w.st 2048).1 (keyPath dirCSR app)
        (pemPrivateKey sys k) fileMode).2 = none →
      (createAndWritePrivateKey sys app dirCSR w).2 = (some k, none)) ∧
    ((createAndWritePrivateKey sys app dirCSR w).2.1 = none ↔
      (createAndWritePrivateKey sys app dirCSR w).2.2 ≠ none) ∧
    (∀ e, (sys.CreateCertificateRequest w.st (template i) key).2 = Except.error e →
      (createAndWriteCSR sys i key dirCSR w).2 = some e) ∧
    (∀ c e, (sys.CreateCertificateRequest w.st (template i) key).2 = Except.ok c →
      (sys.WriteFile (sys.CreateCertificateRequest w.st (template i) key).1
        (csrPath dirCSR i.app) (cr sys c) fileMode).2 = some e →
      (createAndWriteCSR sys i key dirCSR w).2 = some e) ∧
    (∃ evs, (createAndWritePrivateKey sys app dirCSR w).1.trace = w.trace ++ evs ∧
      evs.length ≤ 2) ∧
    (∃ evs, (createAndWriteCSR sys i key dirCSR w).1.trace = w.trace ++ evs ∧
      evs.length ≤ 2) ∧
    (∀ e, (createAndWritePrivateKey sys (envInput sys).app (envDirCSR sys) w).2.2 = some e →
      Creation sys w
        = ((createAndWritePrivateKey sys (envInput sys).app (envDirCSR sys) w).1,
           Outcome.fatal e) ∧
      ∃ evs, (Creation sys w).1.trace = w.trace ++ evs ∧
        (∀ t k r, Event.createCertificateRequest t k r ∉ evs) ∧
        (∀ d p err, Event.writeFile (csrPath (envDirCSR sys) (envInput sys).app) d p err
          ∉ evs)) := by
  refine ⟨?_, ?_, ?_, ?_, ?_, ?_, ?_, ?_, ?_⟩
  · intro e h
    exact createAndWritePrivateKey_gen_error sys app dirCSR w e h
  · intro k e h hw
    rw [createAndWritePrivateKey_gen_ok sys app dirCSR w k h, hw]
    rfl
  · intro k h hw
    rw [createAndWritePrivateKey_gen_ok sys app dirCSR w k h, hw]
    rfl
  · cases hg : (sys.GenerateKey w.st 2048).2 with
    | error e =>
      rw [createAndWritePrivateKey_gen_error sys app dirCSR w e hg]
      simp
    | ok k =>
      rw [createAndWritePrivateKey_gen_ok sys app dirCSR w k hg]
      cases hw : (sys.WriteFile (sys.GenerateKey w.st 2048).1 (keyPath dirCSR app)
        (pemPrivateKey sys k) fileMode).2 <;> simp
  · intro e h
    rw [createAndWriteCSR_req_error sys i key dirCSR w e h]
  · intro c e h hw
    rw [createAndWriteCSR_req_ok sys i key dirCSR w c h, hw]
  · obtain ⟨evs, h1, h2, _⟩ := createAndWritePrivateKey_trace sys app dirCSR w
    exact ⟨evs, h1, h2⟩
  · obtain ⟨evs, h1, h2, _⟩ := createAndWriteCSR_trace sys i key dirCSR w
    exact ⟨evs, h1, h2⟩
  · intro e he
    have hc := Creation_key_error sys w e he
    refine ⟨hc, ?_⟩
    obtain ⟨evs, h1, _, h2⟩ :=
      createAndWritePrivateKey_trace sys (envInput sys).app (envDirCSR sys) w
    refine ⟨evs, by rw [hc]; exact h1, ?_, ?_⟩
    · intro t k r hev
      rcases h2 _ hev with ⟨r2, h⟩ | ⟨d2, e2, h⟩ <;> cases h
    · intro d p err hev
      rcases h2 _ hev with ⟨r2, h⟩ | ⟨d2, e2, h⟩
      · cases h
      · have hp : csrPath (envDirCSR sys) (envInput sys).app
            = keyPath (envDirCSR sys) (envInput sys).app := by
          injection h
        exact keyPath_ne_csrPath _ _ hp.symm

/-- Witness of C8.  With an exhausted random source key generation fails and
`Creation` ends with that error after the one call.  On a read-only filesystem the
write of the key file fails, and so does the write of the request file when
`createAndWriteCSR` is run there. -/
theorem C8_errors_surface_witness :
    Creation (memSys exampleEnv) ⟨{ exampleState with keys := [] }, []⟩
      = (⟨{ exampleState with keys := [] },
          [Event.generateKey 2048 (Except.error (GoError.other "rand: source exhausted"))]⟩,
         Outcome.fatal (GoError.other "rand: source exhausted")) ∧
    (createAndWritePrivateKey (memSys exampleEnv) (lit "pushservice") (lit "out/csr")
      readOnlyWorld).2 = (none, some (GoError.errno EROFS)) ∧
    (createAndWritePrivateKey (memSys exampleEnv) (lit "pushservice") (lit "out/csr")
      exampleWorld).2 = (some exampleKey, none) ∧
    (createAndWriteCSR (memSys exampleEnv) badCountryInput (some exampleKey) (lit "out/csr")
      exampleWorld).2 = some (GoError.other "asn1: string not valid UTF-8") ∧
    (createAndWriteCSR (memSys exampleEnv) exampleInput (some exampleKey) (lit "out/csr")
      readOnlyWorld).2 = some (GoError.errno EROFS) :=
  ⟨by
    have h := ((C8_errors_surface (memSys exampleEnv) exampleInput (some exampleKey)
      (lit "pushservice") (lit "out/csr") ⟨{ exampleState with keys := [] }, []⟩).2.2.2.2.2.2.2.2
      (GoError.other "rand: source exhausted") (by decide)).1
    rw [h]
    decide,
   (C8_errors_surface (memSys exampleEnv) exampleInput (some exampleKey)
      (lit "pushservice") (lit "out/csr") readOnlyWorld).2.1 exampleKey _ (by decide)
      (by decide),
   (C8_errors_surface (memSys exampleEnv) exampleInput (some exampleKey)
      (lit "pushservice") (lit "out/csr") exampleWorld).2.2.1 exampleKey (by decide)
      (by decide),
   (C8_errors_surface (memSys exampleEnv) badCountryInput (some exampleKey)
      (lit "pushservice") (lit "out/csr") exampleWorld).2.2.2.2.1 _ (by decide),
   (C8_errors_surface (memSys exampleEnv) exampleInput (some exampleKey)
      (lit "pushservice") (lit "out/csr") readOnlyWorld).2.2.2.2.2.1 _ _ rfl (by decide)⟩

end creation
